import Mathlib

/-!
Shallow embedding of the `daft_func` DAG execution and caching core
(`src/daft_func/pipeline.py`, `src/daft_func/cache.py`, `src/daft_func/runner.py`).

Modelling conventions, stated once:

* Python dictionaries are insertion-ordered association lists
  (`List (String × α)`) with `dictGet` / `dictSet` mirroring `d[k]` reads
  and writes (`dictSet` updates an existing key in place, else appends).
* Cryptographic hashes (`hashlib.sha256(x).hexdigest()[:16]`) are modelled
  by their preimage `x` itself: the code relies on sha256 behaving
  injectively, so `hash(x) = hash(y) ↔ x = y` is taken as the semantics.
  A function's source text (`inspect.getsource`) is abstracted to a
  numeric code identity `fnId`, distinct functions having distinct ids.
* `compute_deps_hash` walks the module files of the function on disk via
  the `ast` module; for a fixed file system it is a deterministic function
  of the function's module and the depth, returning `""` for `depth ≤ 0`.
  We model it as such a function of `fnId` and `depth`.
* The runtime value universe `Val` covers the shapes the verified claims
  exercise: ints, strings, booleans, `None`, flat lists, and objects
  exposing a `__cache_key__` method (identified by their cache-key string
  and their runtime `id()`).  Generic attribute-bearing objects, sets and
  Pydantic models are outside this universe, so the corresponding
  serialization branches (and the `serialization_depth` limit, which only
  they consult) do not appear.
* Wall-clock time (`time.time()`) is a logical clock: a `Nat` threaded
  through the run state and incremented at each signature computation.
* The iteration order of the Python `set` backing
  `Pipeline.topo`'s `remaining = set(self.nodes)` is implementation
  defined (`NodeDef` hashes are `id`-based).  It is modelled as an
  explicit enumeration `enum : List NodeDef`, a permutation of the
  registered nodes supplied as an oracle to `topoEnum` and the runner.
-/

namespace DaftFunc

/-! ## Python dictionaries as insertion-ordered association lists -/

/-- Read `d[k]` (`None`/absent distinction kept via `Option`). -/
def dictGet (k : String) : List (String × α) → Option α
  | [] => none
  | (k', v) :: rest => if k' = k then some v else dictGet k rest

/-- Write `d[k] = v`: replace the binding in place if present, else append. -/
def dictSet (k : String) (v : α) : List (String × α) → List (String × α)
  | [] => [(k, v)]
  | (k', v') :: rest => if k' = k then (k, v) :: rest else (k', v') :: dictSet k v rest

/-- The keys of a dictionary, in insertion order. -/
def dictKeys (d : List (String × α)) : List String := d.map Prod.fst

/-! ## String ordering (Python's lexicographic comparison by code point) -/

/-- Lexicographic comparison of character lists by code point. -/
def charsLe : List Char → List Char → Bool
  | [], _ => true
  | _ :: _, [] => false
  | c :: cs, d :: ds =>
    if c.val.toNat < d.val.toNat then true
    else if d.val.toNat < c.val.toNat then false
    else charsLe cs ds

/-- Python string `<=`, used by `sorted(...)` on strings. -/
def strLe (a b : String) : Bool := charsLe a.data b.data

/-- Insert into a `strLe`-sorted list of strings. -/
def insertStr (s : String) : List String → List String
  | [] => [s]
  | x :: xs => if strLe s x then s :: x :: xs else x :: insertStr s xs

/-- Model of Python `sorted` on a list of strings. -/
def sortStrings (l : List String) : List String := l.foldr insertStr []

/-- Insert into a list of pairs sorted by `strLe` on the key. -/
def insertByKey (kv : String × α) : List (String × α) → List (String × α)
  | [] => [kv]
  | x :: xs => if strLe kv.1 x.1 then kv :: x :: xs else x :: insertByKey kv xs

/-- Model of Python `sorted(d.items())`: sort an association list by key. -/
def sortByKey (l : List (String × α)) : List (String × α) := l.foldr insertByKey []

/-! ## Runtime values -/

/-- Runtime values flowing through the execution environment.
`vobj ck oid` is an object exposing a `__cache_key__` method returning the
string `ck`, with runtime identity `id(obj) = oid`. -/
inductive Val where
  | vint (n : Int)
  | vstr (s : String)
  | vbool (b : Bool)
  | vnone
  | vlist (xs : List Val)
  | vobj (cacheKey : String) (objId : Nat)

mutual

/-- Structural equality test on values. -/
def Val.beq : Val → Val → Bool
  | .vint a, .vint b => a == b
  | .vstr a, .vstr b => a == b
  | .vbool a, .vbool b => a == b
  | .vnone, .vnone => true
  | .vlist xs, .vlist ys => Val.beqList xs ys
  | .vobj c1 i1, .vobj c2 i2 => c1 == c2 && i1 == i2
  | _, _ => false

/-- Elementwise equality test on value lists. -/
def Val.beqList : List Val → List Val → Bool
  | [], [] => true
  | x :: xs, y :: ys => Val.beq x y && Val.beqList xs ys
  | _, _ => false

end

mutual

/-- Canonical rendering of a value, standing in for Python `str(item)` in
the item-cache-key fallback `str(hash(str(item)))` (hash idealized as
injective, see the header). -/
def Val.encode : Val → String
  | .vint n => "i:" ++ toString n
  | .vstr s => "s:" ++ s
  | .vbool b => "b:" ++ toString b
  | .vnone => "None"
  | .vobj ck oid => "o:" ++ ck ++ ":" ++ toString oid
  | .vlist xs => "[" ++ String.intercalate "," (Val.encodeList xs) ++ "]"

/-- Renders each element of a value list (helper for `Val.encode`). -/
def Val.encodeList : List Val → List String
  | [] => []
  | x :: xs => Val.encode x :: Val.encodeList xs

end

/-! ## Serialized forms (`cache.compute_inputs_hash._serialize`) -/

/-- The JSON-serializable trees produced by `_serialize`: this is the
preimage of the `inputs_hash`, compared structurally (sha256 of the
canonical `json.dumps` is injective on this domain). -/
inductive SerVal where
  | snum (n : Int)
  | sstr (s : String)
  | sbool (b : Bool)
  | snull
  | slist (xs : List SerVal)
  | smap (kvs : List (String × SerVal))

mutual

/-- Structural equality of serialized trees (equality of the hashes they
stand for). -/
def SerVal.beq : SerVal → SerVal → Bool
  | .snum a, .snum b => a == b
  | .sstr a, .sstr b => a == b
  | .sbool a, .sbool b => a == b
  | .snull, .snull => true
  | .slist xs, .slist ys => SerVal.beqList xs ys
  | .smap xs, .smap ys => SerVal.beqKVList xs ys
  | _, _ => false

/-- Elementwise equality of serialized-tree lists. -/
def SerVal.beqList : List SerVal → List SerVal → Bool
  | [], [] => true
  | x :: xs, y :: ys => SerVal.beq x y && SerVal.beqList xs ys
  | _, _ => false

/-- Elementwise equality of key/serialized-tree association lists. -/
def SerVal.beqKVList : List (String × SerVal) → List (String × SerVal) → Bool
  | [], [] => true
  | (k1, v1) :: xs, (k2, v2) :: ys => k1 == k2 && SerVal.beq v1 v2 && SerVal.beqKVList xs ys
  | _, _ => false

end

mutual

/-- Canonical JSON rendering of a serialized tree (`json.dumps` with
`sort_keys=True`; the trees built by `serialize` already carry their map
keys sorted). -/
def SerVal.enc : SerVal → String
  | .snum n => toString n
  | .sstr s => "\"" ++ s ++ "\""
  | .sbool b => toString b
  | .snull => "null"
  | .slist xs => "[" ++ String.intercalate "," (SerVal.encList xs) ++ "]"
  | .smap kvs => "\x7b" ++ String.intercalate "," (SerVal.encKVList kvs) ++ "\x7d"

/-- Renders the elements of a serialized-tree list. -/
def SerVal.encList : List SerVal → List String
  | [] => []
  | x :: xs => SerVal.enc x :: SerVal.encList xs

/-- Renders the entries of a key/serialized-tree association list. -/
def SerVal.encKVList : List (String × SerVal) → List String
  | [] => []
  | (k, v) :: xs => ("\"" ++ k ++ "\":" ++ SerVal.enc v) :: SerVal.encKVList xs

end

/-! ## Signature engine (`cache.py`) -/

/-- The declared return annotation of a node function, as observed by
`get_type_hints(fn).get("return", None)` in `compute_signature`. -/
inductive RetAnn where
  | rbool
  | rnonetype
  | rother
  | rmissing

/-- The `force_ids` heuristic of `compute_signature`:
`ret is bool or ret is type(None)`. -/
def force_instance_ids : RetAnn → Bool
  | .rbool => true
  | .rnonetype => true
  | _ => false

mutual

/-- Model of `_serialize` over the `Val` universe.  Strategy 1 (an object
with `__cache_key__`) keys the object by its cache-key token, adding the
runtime `id` when `force_instance_ids` is set; primitives map to
themselves; lists recurse elementwise.  (The map keys
`"__cache_key__" < "__id__"` are emitted in sorted order, matching
`json.dumps(..., sort_keys=True)`.) -/
def serialize (forceIds : Bool) : Val → SerVal
  | .vobj ck oid =>
    if forceIds then
      .smap [("__cache_key__", .sstr ck), ("__id__", .snum (oid : Int))]
    else
      .smap [("__cache_key__", .sstr ck)]
  | .vint n => .snum n
  | .vstr s => .sstr s
  | .vbool b => .sbool b
  | .vnone => .snull
  | .vlist xs => .slist (serializeList forceIds xs)

/-- Elementwise serialization of a list value (`_serialize` strategy 3). -/
def serializeList (forceIds : Bool) : List Val → List SerVal
  | [] => []
  | x :: xs => serialize forceIds x :: serializeList forceIds xs

end

/-- Model of `compute_inputs_hash`: serialize every kwarg, sort by key,
and hash the canonical JSON form — idealized as the sorted serialized
tree itself. -/
def compute_inputs_hash (kwargs : List (String × Val)) (forceIds : Bool) : SerVal :=
  .smap ((sortByKey kwargs).map fun kv => (kv.1, serialize forceIds kv.2))

/-- Model of `compute_code_hash`: sha256 of `inspect.getsource(fn)`,
idealized as the function's code identity itself. -/
def compute_code_hash (fnId : Nat) : Nat := fnId

/-- Model of `compute_deps_hash`: empty for `depth ≤ 0`, otherwise a
deterministic fingerprint of the function's module imports (a fixed
function of the code identity for a fixed file system). -/
def compute_deps_hash (fnId : Nat) (depth : Int) : String :=
  if depth ≤ 0 then "" else "deps:" ++ toString fnId

/-- Model of `cache.NodeSignature` (hash strings replaced by their
idealized preimages; see the header). -/
structure NodeSignature where
  node_name : String
  code_hash : Nat
  env_hash : String
  inputs_hash : SerVal
  deps_hash : String
  timestamp : Nat

/-- The signature string propagated to descendants:
`f"{sig.code_hash}{sig.env_hash}{sig.inputs_hash}{sig.deps_hash}"`
(the timestamp is not part of it). -/
def sigStr (s : NodeSignature) : String :=
  toString s.code_hash ++ s.env_hash ++ SerVal.enc s.inputs_hash ++ s.deps_hash

/-- Model of `compute_signature`.  `parent_sigs` is the runner's
`_current_signatures` dictionary; the parent hash is the join of the
sorted parent signature strings (sha256 idealized away), concatenated
with the static dependency fingerprint. -/
def compute_signature (node_name : String) (fnId : Nat) (retAnn : RetAnn)
    (kwargs : List (String × Val)) (parent_sigs : List (String × String))
    (env_hash : Option String) (dependency_depth : Int) (now : Nat) : NodeSignature :=
  let code_hash := compute_code_hash fnId
  let deps_code_hash := compute_deps_hash fnId dependency_depth
  let force_ids := force_instance_ids retAnn
  let inputs_hash := compute_inputs_hash kwargs force_ids
  let parent_hash := String.join (sortStrings (parent_sigs.map Prod.snd))
  { node_name := node_name
    code_hash := code_hash
    env_hash := env_hash.getD ""
    inputs_hash := inputs_hash
    deps_hash := parent_hash ++ deps_code_hash
    timestamp := now }

/-- Model of `signatures_match`: all four hash components agree, the
timestamp is ignored. -/
def signatures_match (sig1 sig2 : NodeSignature) : Bool :=
  sig1.code_hash == sig2.code_hash
    && sig1.env_hash == sig2.env_hash
    && SerVal.beq sig1.inputs_hash sig2.inputs_hash
    && sig1.deps_hash == sig2.deps_hash

/-- Model of `get_item_cache_key`.  No value in the `Val` universe carries
named attributes or is a Pydantic model, so the `key_attr` and id-field
probes never fire and the function reaches the fallback
`str(hash(str(item)))`, idealized as the canonical rendering of the item. -/
def get_item_cache_key (item : Val) (_keyAttr : Option String) : String :=
  Val.encode item

/-- Model of `make_cache_key`: `f"{node_name}::{item_key}"` for map-axis
items, plain `node_name` otherwise.  (Python tests the item key for
truthiness: an empty-string item key also yields the plain name.) -/
def make_cache_key (node_name : String) (item_key : Option String) : String :=
  match item_key with
  | some k => if k = "" then node_name else node_name ++ "::" ++ k
  | none => node_name

/-! ## Cache backend (`cache.MemoryCache`), statistics, configuration -/

/-- Model of `MemoryCache`: two in-process dictionaries, no persistence. -/
structure MemoryCache where
  meta : List (String × NodeSignature) := []
  blobs : List (String × Val) := []

/-- A fresh `MemoryCache()`. -/
def MemoryCache.empty : MemoryCache := {}

/-- Model of `MemoryCache.get_meta`: `self._meta.get(node_name)`. -/
def MemoryCache.get_meta (c : MemoryCache) (node_name : String) : Option NodeSignature :=
  dictGet node_name c.meta

/-- Model of `MemoryCache.set_meta`: `self._meta[signature.node_name] = signature`. -/
def MemoryCache.set_meta (c : MemoryCache) (signature : NodeSignature) : MemoryCache :=
  { c with meta := dictSet signature.node_name signature c.meta }

/-- Model of `MemoryCache.get_blob`: `self._blobs.get(key)` — Python's
`dict.get` returns `None` both for an absent key and for a stored `None`,
so the result is a `Val` with `vnone` standing for either. -/
def MemoryCache.get_blob (c : MemoryCache) (key : String) : Val :=
  (dictGet key c.blobs).getD .vnone

/-- Model of `MemoryCache.set_blob`: `self._blobs[key] = value`. -/
def MemoryCache.set_blob (c : MemoryCache) (key : String) (value : Val) : MemoryCache :=
  { c with blobs := dictSet key value c.blobs }

/-- Model of `cache.CacheEvent` (the wall-clock `execution_time` field is
not representable and carries no logical content). -/
structure CacheEvent where
  node_name : String
  cache_enabled : Bool
  cache_hit : Bool
  loaded : Bool
deriving DecidableEq, Repr

/-- Model of `cache.CacheConfig`.  The `backend` field is threaded
separately as run-state (`RunState.backend`); `serialization_depth` is
omitted because no value in the modelled universe reaches the
depth-limited branch (see the header). -/
structure CacheConfig where
  enabled : Bool := false
  env_hash : Option String := none
  dependency_depth : Int := 2
  verbose : Bool := true
  per_item_caching : Bool := true

/-! ## Pipeline and topological sort (`pipeline.py`) -/

/-- Model of `pipeline.NodeMeta`. -/
structure NodeMeta where
  output_name : String
  map_axis : Option String := none
  key_attr : Option String := none
  cache : Bool := false
  cache_key : Option String := none

/-- Model of `pipeline.NodeDef`.  `fn` is the node callable on its keyword
arguments; `fnId` its code identity (see the header); `retAnn` the return
annotation `get_type_hints` reports for it. -/
structure NodeDef where
  fn : List (String × Val) → Val
  fnId : Nat
  retAnn : RetAnn
  meta : NodeMeta
  params : List String
  params_with_defaults : List String := []

/-- Model of `Pipeline`: the registered node list plus the
`by_output` index. -/
structure Pipeline where
  nodes : List NodeDef := []
  by_output : List (String × NodeDef) := []

/-- Model of `Pipeline.add`: append the node and index it by output name
(no validation of any kind is performed). -/
def Pipeline.add (p : Pipeline) (n : NodeDef) : Pipeline :=
  { nodes := p.nodes ++ [n]
    by_output := dictSet n.meta.output_name n p.by_output }

/-- The required parameters of a node: those that are not `"self"` and
carry no default (`Pipeline.topo`). -/
def requiredParams (n : NodeDef) : List String :=
  n.params.filter fun p => p != "self" && !(n.params_with_defaults.contains p)

/-- One pass of the `while remaining:` loop of `Pipeline.topo`: scan the
remaining nodes in iteration order, moving every node whose required
parameters are all available into the ordered list and adding its output
name to the available set.  Returns the grown available list, the nodes
still remaining, and the newly ordered nodes of this pass. -/
def topoPass (available : List String) :
    List NodeDef → List String × List NodeDef × List NodeDef
  | [] => (available, [], [])
  | n :: rest =>
    if (requiredParams n).all available.contains then
      let r := topoPass (available ++ [n.meta.output_name]) rest
      (r.1, r.2.1, n :: r.2.2)
    else
      let r := topoPass available rest
      (r.1, n :: r.2.1, r.2.2)

/-- The dependency-resolution error message (`RuntimeError` listing, per
unresolved node, its missing required inputs). -/
def topoErrorMsg (available : List String) (remaining : List NodeDef) : String :=
  "Cannot resolve pipeline dependencies. Missing: "
    ++ String.intercalate "; "
      (remaining.map fun n =>
        n.meta.output_name ++ " needs "
          ++ String.intercalate ","
            ((requiredParams n).filter fun p => !(available.contains p)))

/-- The `while remaining:` loop.  The fuel starts at the number of
remaining nodes; every progressing pass removes at least one node, so the
fuel never runs out before `remaining` empties, and the fuel-exhausted
branch is unreachable (it reports the same error shape for totality). -/
def topoLoop : Nat → List String → List NodeDef → List NodeDef →
    Except String (List NodeDef)
  | _, _, [], ordered => .ok ordered
  | 0, available, remaining, _ => .error (topoErrorMsg available remaining)
  | fuel + 1, available, remaining, ordered =>
    let r := topoPass available remaining
    if r.2.2.isEmpty then .error (topoErrorMsg available remaining)
    else topoLoop fuel r.1 r.2.1 (ordered ++ r.2.2)

/-- Model of `Pipeline.topo`, parameterized by `enum`, the iteration order
of the backing Python set `set(self.nodes)` (a permutation of the
registered nodes; see the header). -/
def topoEnum (enum : List NodeDef) (availableKeys : List String) :
    Except String (List NodeDef) :=
  topoLoop enum.length availableKeys enum []

/-! ## Execution runner (`runner.py`) -/

/-- Ghost observation of one cache-backend call made by the runner
(instrumentation only: lets frame theorems state "no backend calls"). -/
inductive BackendOp where
  | getMetaOp (key : String)
  | setMetaOp (key : String)
  | getBlobOp (key : String)
  | setBlobOp (key : String)
deriving DecidableEq, Repr

/-- The runner's per-run mutable state: the shared cache backend, the
`_current_signatures` dictionary, the optional `CacheStats` event list,
and ghost instrumentation (the backend-call trace, the number of
`compute_signature` calls, and the logical clock feeding timestamps). -/
structure RunState where
  backend : MemoryCache
  sigs : List (String × String) := []
  stats : Option (List CacheEvent) := none
  trace : List BackendOp := []
  sigComputations : Nat := 0
  clock : Nat := 0

/-- Model of `CacheStats.record`: append an event when statistics are
being collected, do nothing otherwise. -/
def recordEvent (st : RunState) (e : CacheEvent) : RunState :=
  match st.stats with
  | some evs => { st with stats := some (evs ++ [e]) }
  | none => st

/-- Python `a or b` on optional strings (an empty string is falsy), used
for `node.meta.cache_key or self.cache_config.env_hash`. -/
def pyOrStr (a b : Option String) : Option String :=
  match a with
  | some s => if s = "" then b else some s
  | none => b

/-- The shared execute-and-store block of `Runner._run_single` (reached on
a cache miss and on a hit whose blob failed to load): run the node, bind
its result, write blob then metadata, propagate the signature, record a
miss event. -/
def runNodeExec (node : NodeDef) (kwargs : List (String × Val))
    (cache_key : String) (new_sig : NodeSignature)
    (outputs : List (String × Val)) (st : RunState) :
    List (String × Val) × RunState :=
  let res := node.fn kwargs
  let outputs := dictSet node.meta.output_name res outputs
  let st := { st with backend := st.backend.set_blob cache_key res
                      trace := st.trace ++ [BackendOp.setBlobOp cache_key] }
  let st := { st with backend := st.backend.set_meta new_sig
                      trace := st.trace ++ [BackendOp.setMetaOp cache_key] }
  let st := { st with sigs := dictSet node.meta.output_name (sigStr new_sig) st.sigs }
  let st := recordEvent st
    { node_name := node.meta.output_name, cache_enabled := true
      cache_hit := false, loaded := false }
  (outputs, st)

/-- The keyword arguments `_run_single` gathers for a node: the subset of
its declared parameters present in the accumulated environment, in
parameter order. -/
def nodeKwargs (node : NodeDef) (outputs : List (String × Val)) : List (String × Val) :=
  node.params.filterMap fun p => (dictGet p outputs).map fun v => (p, v)

/-- The item key `_run_single` derives for a map-axis node under per-item
caching (absent otherwise). -/
def nodeItemKey (cfg : CacheConfig) (node : NodeDef)
    (kwargs : List (String × Val)) : Option String :=
  match node.meta.map_axis with
  | some ax =>
    if cfg.per_item_caching then
      match dictGet ax kwargs with
      | some item => some (get_item_cache_key item node.meta.key_attr)
      | none => none
    else none
  | none => none

/-- The cache key `_run_single` builds for a node. -/
def nodeCacheKey (cfg : CacheConfig) (node : NodeDef)
    (kwargs : List (String × Val)) : String :=
  make_cache_key node.meta.output_name (nodeItemKey cfg node kwargs)

/-- The signature `_run_single` computes for a node from the current
environment and run state. -/
def nodeSig (cfg : CacheConfig) (node : NodeDef)
    (outputs : List (String × Val)) (st : RunState) : NodeSignature :=
  compute_signature (nodeCacheKey cfg node (nodeKwargs node outputs)) node.fnId
    node.retAnn (nodeKwargs node outputs) st.sigs
    (pyOrStr node.meta.cache_key cfg.env_hash) cfg.dependency_depth st.clock

/-- The body of the `for node in order:` loop of `Runner._run_single`.
With caching in force for the node: build the cache key (item-key
extended for map-axis nodes under per-item caching), compute the
signature, declare a hit iff stored metadata exists and matches, load the
blob on a hit (a `None` blob falls through to re-execution), otherwise
execute and repopulate both stores.  Without caching: just execute and
bind, touching neither the signature engine nor the backend. -/
def runNode (cfg : CacheConfig) (node : NodeDef)
    (outputs : List (String × Val)) (st : RunState) :
    List (String × Val) × RunState :=
  let kwargs := nodeKwargs node outputs
  let use_cache := cfg.enabled && node.meta.cache
  if use_cache then
    let cache_key := nodeCacheKey cfg node kwargs
    let new_sig := nodeSig cfg node outputs st
    let st := { st with sigComputations := st.sigComputations + 1
                        clock := st.clock + 1 }
    let stored := st.backend.get_meta cache_key
    let st := { st with trace := st.trace ++ [BackendOp.getMetaOp cache_key] }
    let cache_hit := match stored with
      | some s => signatures_match new_sig s
      | none => false
    if cache_hit then
      let cached := st.backend.get_blob cache_key
      let st := { st with trace := st.trace ++ [BackendOp.getBlobOp cache_key] }
      match cached with
      | .vnone => runNodeExec node kwargs cache_key new_sig outputs st
      | cached_value =>
        let outputs := dictSet node.meta.output_name cached_value outputs
        let st := { st with sigs := dictSet node.meta.output_name (sigStr new_sig) st.sigs }
        let st := recordEvent st
          { node_name := node.meta.output_name, cache_enabled := true
            cache_hit := true, loaded := true }
        (outputs, st)
    else
      runNodeExec node kwargs cache_key new_sig outputs st
  else
    let res := node.fn kwargs
    let outputs := dictSet node.meta.output_name res outputs
    let st := recordEvent st
      { node_name := node.meta.output_name, cache_enabled := false
        cache_hit := false, loaded := false }
    (outputs, st)

/-- The `for node in order:` loop over the topologically ordered nodes. -/
def processNodes (cfg : CacheConfig) (order : List NodeDef)
    (outputs : List (String × Val)) (st : RunState) :
    List (String × Val) × RunState :=
  order.foldl (fun acc n => runNode cfg n acc.1 acc.2) (outputs, st)

/-- Model of `Runner._run_single`: copy the inputs into the accumulating
environment, resolve the topological order, and process every node.
`enum` is the backing-set iteration order for `Pipeline.topo` (see the
header). -/
def runSingle (cfg : CacheConfig) (enum : List NodeDef)
    (inputs : List (String × Val)) (st : RunState) :
    Except String (List (String × Val)) × RunState :=
  match topoEnum enum (dictKeys inputs) with
  | .error e => (.error e, st)
  | .ok order =>
    let r := processNodes cfg order inputs st
    (.ok r.1, r.2)

/-- The `for item_idx, it in enumerate(items):` loop of
`Runner._run_local_loop`: reset `_current_signatures`, rebuild the
per-item inputs as constants plus the single item, and run the single-item
path, collecting each item's full output environment. -/
def loopItems (cfg : CacheConfig) (enum : List NodeDef)
    (constants : List (String × Val)) (map_axis : String) :
    List Val → RunState → List (List (String × Val)) →
    Except String (List (List (String × Val))) × RunState
  | [], st, acc => (.ok acc, st)
  | it :: rest, st, acc =>
    let st := { st with sigs := [] }
    match runSingle cfg enum (dictSet map_axis it constants) st with
    | (.error e, st') => (.error e, st')
    | (.ok per_out, st') => loopItems cfg enum constants map_axis rest st' (acc ++ [per_out])

/-- Model of `Runner._run_local_loop`: split the inputs into the item
sequence under the map axis and the constants, resolve the node order
once (with the axis bound to the first item — an empty item list raises
`IndexError`), run every item through the single-item path, and merge:
the returned environment is `dict(constants)` plus only the final node's
output aggregated across items in item order. -/
def runLocalLoop (cfg : CacheConfig) (enum : List NodeDef)
    (inputs : List (String × Val)) (map_axis : String) (st : RunState) :
    Except String (List (String × Val)) × RunState :=
  match dictGet map_axis inputs with
  | none => (.error "KeyError", st)
  | some (.vlist items) =>
    let constants := inputs.filter fun kv => kv.1 != map_axis
    match items with
    | [] => (.error "IndexError", st)
    | it0 :: _ =>
      match topoEnum enum (dictKeys (dictSet map_axis it0 constants)) with
      | .error e => (.error e, st)
      | .ok order =>
        match loopItems cfg enum constants map_axis items st [] with
        | (.error e, st') => (.error e, st')
        | (.ok aggregated, st') =>
          let merged :=
            match order.getLast? with
            | some finalNode =>
              let nm := finalNode.meta.output_name
              dictSet nm
                (.vlist (aggregated.map fun o => (dictGet nm o).getD .vnone))
                constants
            | none => constants
          (.ok merged, st')
  | some _ => (.error "TypeError", st)

/-- The runner's execution mode: `local`, `daft`, or `auto`. -/
inductive Mode where
  | mlocal
  | mdaft
  | mauto
deriving DecidableEq, Repr

/-- Model of `Runner.run`, the run entry point, for an environment
without the optional `daft` dependency (`DAFT_AVAILABLE = False`, in
which case `_run_batch` falls back to `_run_local_loop`; the Daft branch
proper delegates to the external batch-executor collaborator and is out
of scope, spec §6).  Resets the signature dictionary, initializes
statistics when caching and verbosity are both on, validates the
single-map-axis invariant, decides the batching strategy, and dispatches
to the single-item, per-item-loop, or batch path. -/
def Runner.run (cfg : CacheConfig) (mode : Mode) (batch_threshold : Nat)
    (pipelineNodes enum : List NodeDef) (inputs : List (String × Val))
    (backend : MemoryCache) (clock : Nat) :
    Except String (List (String × Val)) × RunState :=
  let st : RunState :=
    { backend := backend
      sigs := []
      stats := if cfg.enabled && cfg.verbose then some [] else none
      trace := []
      sigComputations := 0
      clock := clock }
  let map_axes := (pipelineNodes.filterMap fun n => n.meta.map_axis).eraseDups
  if 1 < map_axes.length then
    (.error "ValueError: this runner supports one map axis", st)
  else
    let map_axis := map_axes.head?
    let batchInfo : Bool × Nat :=
      match map_axis with
      | some ax =>
        match dictGet ax inputs with
        | some (.vlist l) => (true, l.length)
        | _ => (false, 1)
      | none => (false, 1)
    let batching_requested := batchInfo.1
    let items_count := batchInfo.2
    let batching :=
      match mode with
      | .mlocal => false
      | .mdaft => true
      | .mauto =>
        match map_axis with
        | some _ => batching_requested && batch_threshold ≤ items_count
        | none => false
    if batching then
      match map_axis with
      | none => (.error "AssertionError: no map axis configured", st)
      | some ax => runLocalLoop cfg enum inputs ax st
    else if batching_requested then
      match map_axis with
      | none => (.error "AssertionError: map_axis required for local loop", st)
      | some ax => runLocalLoop cfg enum inputs ax st
    else
      runSingle cfg enum inputs st

/-! ## Fallible cache backends

`Runner._run_single` wraps none of its backend calls in `try`/`except`;
to observe what happens when a backend raises (e.g. `DiskCache` on a
failing file system), the per-node body is replayed against a backend
whose operations return `Except`, with exceptions propagating exactly as
unhandled Python exceptions do. -/

/-- A cache backend whose operations may raise an exception. -/
structure ExcBackend where
  get_meta : String → Except String (Option NodeSignature)
  set_meta : NodeSignature → Except String Unit
  get_blob : String → Except String Val
  set_blob : String → Val → Except String Unit

/-- The runner state threaded through the fallible-backend replay (the
backend itself is a fixed function table). -/
structure RunStateE where
  sigs : List (String × String) := []
  stats : Option (List CacheEvent) := none
  clock : Nat := 0

/-- Model of `CacheStats.record` for the fallible-backend replay. -/
def recordEventE (st : RunStateE) (e : CacheEvent) : RunStateE :=
  match st.stats with
  | some evs => { st with stats := some (evs ++ [e]) }
  | none => st

/-- The execute-and-store block of `_run_single` against a fallible
backend: any exception from `set_blob` or `set_meta` propagates
(there is no handler in the source). -/
def runNodeExecE (b : ExcBackend) (node : NodeDef) (kwargs : List (String × Val))
    (cache_key : String) (new_sig : NodeSignature)
    (outputs : List (String × Val)) (st : RunStateE) :
    Except String (List (String × Val) × RunStateE) := do
  let res := node.fn kwargs
  let outputs := dictSet node.meta.output_name res outputs
  let _ ← b.set_blob cache_key res
  let _ ← b.set_meta new_sig
  let st := { st with sigs := dictSet node.meta.output_name (sigStr new_sig) st.sigs }
  let st := recordEventE st
    { node_name := node.meta.output_name, cache_enabled := true
      cache_hit := false, loaded := false }
  return (outputs, st)

/-- The per-node body of `_run_single` against a fallible backend: any
exception from `get_meta` or `get_blob` propagates (there is no handler
in the source, so a read failure is never downgraded to a miss). -/
def runNodeE (cfg : CacheConfig) (b : ExcBackend) (node : NodeDef)
    (outputs : List (String × Val)) (st : RunStateE) :
    Except String (List (String × Val) × RunStateE) :=
  let kwargs := node.params.filterMap fun p => (dictGet p outputs).map fun v => (p, v)
  let use_cache := cfg.enabled && node.meta.cache
  if use_cache then do
    let item_key : Option String :=
      match node.meta.map_axis with
      | some ax =>
        if cfg.per_item_caching then
          match dictGet ax kwargs with
          | some item => some (get_item_cache_key item node.meta.key_attr)
          | none => none
        else none
      | none => none
    let cache_key := make_cache_key node.meta.output_name item_key
    let env_hash := pyOrStr node.meta.cache_key cfg.env_hash
    let new_sig := compute_signature cache_key node.fnId node.retAnn kwargs
      st.sigs env_hash cfg.dependency_depth st.clock
    let st := { st with clock := st.clock + 1 }
    let stored ← b.get_meta cache_key
    let cache_hit := match stored with
      | some s => signatures_match new_sig s
      | none => false
    if cache_hit then
      let cached ← b.get_blob cache_key
      match cached with
      | .vnone => runNodeExecE b node kwargs cache_key new_sig outputs st
      | cached_value =>
        let outputs := dictSet node.meta.output_name cached_value outputs
        let st := { st with sigs := dictSet node.meta.output_name (sigStr new_sig) st.sigs }
        let st := recordEventE st
          { node_name := node.meta.output_name, cache_enabled := true
            cache_hit := true, loaded := true }
        return (outputs, st)
    else
      runNodeExecE b node kwargs cache_key new_sig outputs st
  else
    let res := node.fn kwargs
    let outputs := dictSet node.meta.output_name res outputs
    let st := recordEventE st
      { node_name := node.meta.output_name, cache_enabled := false
        cache_hit := false, loaded := false }
    .ok (outputs, st)

/-- Model of `_run_single` against a fallible backend: resolve the order,
then process every node, aborting on the first exception. -/
def runSingleE (cfg : CacheConfig) (b : ExcBackend) (enum : List NodeDef)
    (inputs : List (String × Val)) (st : RunStateE) :
    Except String (List (String × Val) × RunStateE) :=
  match topoEnum enum (dictKeys inputs) with
  | .error e => .error e
  | .ok order =>
    order.foldlM (fun acc n => runNodeE cfg b n acc.1 acc.2) (inputs, st)

/-! ## Heap model of dictionary identity

Python dictionaries are mutable objects; whether the runner mutates the
caller's `inputs` dictionary is a question about object identity, not
values.  `Store` is a heap of dictionaries addressed by allocation order;
`dict(...)` copies allocate a fresh address and all runner writes are
replayed against the address they target in the source. -/

/-- A heap of dictionaries; the address of a dictionary is its index. -/
structure Store where
  mem : List (List (String × Val))

/-- Dereference an address (a dangling address reads as empty). -/
def Store.read (s : Store) (a : Nat) : List (String × Val) :=
  s.mem.getD a []

/-- Overwrite the dictionary at an address. -/
def Store.write (s : Store) (a : Nat) (d : List (String × Val)) : Store :=
  ⟨s.mem.set a d⟩

/-- Allocate a fresh dictionary, returning its address. -/
def Store.alloc (s : Store) (d : List (String × Val)) : Store × Nat :=
  (⟨s.mem ++ [d]⟩, s.mem.length)

/-- The node loop of `_run_single` on the heap: every environment write
`outputs[name] = value` targets `outAddr`, the address of the runner's
own `outputs = dict(inputs)` copy. -/
def processNodesSt (cfg : CacheConfig) (order : List NodeDef) (outAddr : Nat)
    (store : Store) (st : RunState) : Store × RunState :=
  order.foldl
    (fun acc n =>
      let r := runNode cfg n (acc.1.read outAddr) acc.2
      (acc.1.write outAddr r.1, r.2))
    (store, st)

/-- Model of `_run_single` on the heap: `outputs = dict(inputs)` allocates
a fresh copy; the caller's dictionary at `inAddr` is never written. -/
def runSingleSt (cfg : CacheConfig) (enum : List NodeDef) (inAddr : Nat)
    (store : Store) (st : RunState) : Except String Nat × Store × RunState :=
  let inputs := store.read inAddr
  let r := store.alloc inputs
  match topoEnum enum (dictKeys inputs) with
  | .error e => (.error e, r.1, st)
  | .ok order =>
    let r2 := processNodesSt cfg order r.2 r.1 st
    (.ok r.2, r2.1, r2.2)

/-- The item loop of `_run_local_loop` on the heap: each
each per-item inputs dictionary (constants plus the single item) is fresh. -/
def loopItemsSt (cfg : CacheConfig) (enum : List NodeDef) (constAddr : Nat)
    (map_axis : String) :
    List Val → Store → RunState → List Nat → Except String (List Nat) × Store × RunState
  | [], store, st, acc => (.ok acc, store, st)
  | it :: rest, store, st, acc =>
    let st := { st with sigs := [] }
    let r := store.alloc (dictSet map_axis it (store.read constAddr))
    match runSingleSt cfg enum r.2 r.1 st with
    | (.error e, store', st') => (.error e, store', st')
    | (.ok outAddr, store', st') =>
      loopItemsSt cfg enum constAddr map_axis rest store' st' (acc ++ [outAddr])

/-- Model of `_run_local_loop` on the heap: `constants` and the final
`merged = dict(constants)` are fresh dictionaries; the caller's inputs
dictionary at `inAddr` is only read. -/
def runLocalLoopSt (cfg : CacheConfig) (enum : List NodeDef) (inAddr : Nat)
    (map_axis : String) (store : Store) (st : RunState) :
    Except String Nat × Store × RunState :=
  let inputs := store.read inAddr
  match dictGet map_axis inputs with
  | none => (.error "KeyError", store, st)
  | some (.vlist items) =>
    let r := store.alloc (inputs.filter fun kv => kv.1 != map_axis)
    match items with
    | [] => (.error "IndexError", r.1, st)
    | it0 :: _ =>
      match topoEnum enum (dictKeys (dictSet map_axis it0 (r.1.read r.2))) with
      | .error e => (.error e, r.1, st)
      | .ok order =>
        match loopItemsSt cfg enum r.2 map_axis items r.1 st [] with
        | (.error e, store', st') => (.error e, store', st')
        | (.ok aggAddrs, store', st') =>
          let rm := store'.alloc (store'.read r.2)
          let store'' :=
            match order.getLast? with
            | some finalNode =>
              let nm := finalNode.meta.output_name
              rm.1.write rm.2
                (dictSet nm
                  (.vlist (aggAddrs.map fun a => (dictGet nm (rm.1.read a)).getD .vnone))
                  (rm.1.read rm.2))
            | none => rm.1
          (.ok rm.2, store'', st')
  | some _ => (.error "TypeError", store, st)

/-- Model of `Runner.run` on the heap (same dispatch as `Runner.run`,
with the environments living in the store). -/
def runSt (cfg : CacheConfig) (mode : Mode) (batch_threshold : Nat)
    (pipelineNodes enum : List NodeDef) (inAddr : Nat) (store : Store)
    (backend : MemoryCache) (clock : Nat) : Except String Nat × Store × RunState :=
  let st : RunState :=
    { backend := backend
      sigs := []
      stats := if cfg.enabled && cfg.verbose then some [] else none
      trace := []
      sigComputations := 0
      clock := clock }
  let inputs := store.read inAddr
  let map_axes := (pipelineNodes.filterMap fun n => n.meta.map_axis).eraseDups
  if 1 < map_axes.length then
    (.error "ValueError: this runner supports one map axis", store, st)
  else
    let map_axis := map_axes.head?
    let batchInfo : Bool × Nat :=
      match map_axis with
      | some ax =>
        match dictGet ax inputs with
        | some (.vlist l) => (true, l.length)
        | _ => (false, 1)
      | none => (false, 1)
    let batching :=
      match mode with
      | .mlocal => false
      | .mdaft => true
      | .mauto =>
        match map_axis with
        | some _ => batchInfo.1 && batch_threshold ≤ batchInfo.2
        | none => false
    if batching then
      match map_axis with
      | none => (.error "AssertionError: no map axis configured", store, st)
      | some ax => runLocalLoopSt cfg enum inAddr ax store st
    else if batchInfo.1 then
      match map_axis with
      | none => (.error "AssertionError: map_axis required for local loop", store, st)
      | some ax => runLocalLoopSt cfg enum inAddr ax store st
    else
      runSingleSt cfg enum inAddr store st

/-! ## Concrete graphs and run observations used by the verification -/

/-- Project the value bound under `name` in a run's returned environment. -/
def runOutput (r : Except String (List (String × Val)) × RunState)
    (name : String) : Option Val :=
  match r.1 with
  | .ok env => dictGet name env
  | .error _ => none

/-- The cache events a run recorded (empty when statistics were off). -/
def runEvents (r : Except String (List (String × Val)) × RunState) :
    List CacheEvent :=
  r.2.stats.getD []

/-- A `CacheConfig(enabled=True)` with a fresh in-memory backend
(threaded separately), all other fields at their defaults. -/
def cacheOnCfg : CacheConfig := { enabled := true }

/-- The spec's `foo(a, b) = a + b`, cache-enabled, output `foo_out`. -/
def fooNode : NodeDef :=
  { fn := fun kw =>
      match dictGet "a" kw, dictGet "b" kw with
      | some (.vint x), some (.vint y) => .vint (x + y)
      | _, _ => .vint 0
    fnId := 1
    retAnn := .rother
    meta := { output_name := "foo_out", cache := true }
    params := ["a", "b"] }

/-- The spec's `bar(foo_out, c) = foo_out * c`, cache-enabled, output
`bar_out`. -/
def barNode : NodeDef :=
  { fn := fun kw =>
      match dictGet "foo_out" kw, dictGet "c" kw with
      | some (.vint x), some (.vint y) => .vint (x * y)
      | _, _ => .vint 0
    fnId := 2
    retAnn := .rother
    meta := { output_name := "bar_out", cache := true }
    params := ["foo_out", "c"] }

/-- The two-node scenario graph, in registration order. -/
def scenarioNodes : List NodeDef := [fooNode, barNode]

/-- Scenario run 1: `a=1, b=2, c=3` against a cold backend. -/
def scenarioRun1 : Except String (List (String × Val)) × RunState :=
  Runner.run cacheOnCfg .mauto 2 scenarioNodes scenarioNodes
    [("a", Val.vint 1), ("b", Val.vint 2), ("c", Val.vint 3)] MemoryCache.empty 0

/-- Scenario run 2: identical inputs against run 1's backend. -/
def scenarioRun2 : Except String (List (String × Val)) × RunState :=
  Runner.run cacheOnCfg .mauto 2 scenarioNodes scenarioNodes
    [("a", Val.vint 1), ("b", Val.vint 2), ("c", Val.vint 3)] scenarioRun1.2.backend 100

/-- Scenario run 3: `c` changed to `5` against run 2's backend. -/
def scenarioRun3 : Except String (List (String × Val)) × RunState :=
  Runner.run cacheOnCfg .mauto 2 scenarioNodes scenarioNodes
    [("a", Val.vint 1), ("b", Val.vint 2), ("c", Val.vint 5)] scenarioRun2.2.backend 200

/-- Scenario run 4: `a` changed to `10` against run 3's backend. -/
def scenarioRun4 : Except String (List (String × Val)) × RunState :=
  Runner.run cacheOnCfg .mauto 2 scenarioNodes scenarioNodes
    [("a", Val.vint 10), ("b", Val.vint 2), ("c", Val.vint 5)] scenarioRun3.2.backend 300

/-- The payload environment of a successful run (`[]` on error). -/
def runEnv (r : Except String (List (String × Val)) × RunState) :
    List (String × Val) :=
  match r.1 with
  | .ok env => env
  | .error _ => []

/-- A cache-enabled node whose function always returns `None`
(annotated `-> None`, as a side-effect node would be). -/
def noneNode : NodeDef :=
  { fn := fun _ => Val.vnone
    fnId := 7
    retAnn := .rnonetype
    meta := { output_name := "n_out", cache := true }
    params := ["a"] }

/-- First run of the `None`-returning node against a cold backend. -/
def noneRun1 : Except String (List (String × Val)) × RunState :=
  Runner.run cacheOnCfg .mauto 2 [noneNode] [noneNode]
    [("a", Val.vint 1)] MemoryCache.empty 0

/-- Second, identical run of the `None`-returning node against run 1's
backend. -/
def noneRun2 : Except String (List (String × Val)) × RunState :=
  Runner.run cacheOnCfg .mauto 2 [noneNode] [noneNode]
    [("a", Val.vint 1)] noneRun1.2.backend 100

/-- Map-axis node `y1 = 2 * x` over axis `x` (caching off). -/
def mapNode1 : NodeDef :=
  { fn := fun kw =>
      match dictGet "x" kw with
      | some (.vint n) => .vint (2 * n)
      | _ => .vnone
    fnId := 3
    retAnn := .rother
    meta := { output_name := "y1", map_axis := some "x" }
    params := ["x"] }

/-- Downstream node `y2 = y1 + 1` (also reads the constant `k`). -/
def mapNode2 : NodeDef :=
  { fn := fun kw =>
      match dictGet "y1" kw with
      | some (.vint n) => .vint (n + 1)
      | _ => .vnone
    fnId := 4
    retAnn := .rother
    meta := { output_name := "y2" }
    params := ["y1", "k"] }

/-- A per-item-loop run: `x` is a two-item list, mode `local`. -/
def loopRunEx : Except String (List (String × Val)) × RunState :=
  Runner.run {} .mlocal 2 [mapNode1, mapNode2] [mapNode1, mapNode2]
    [("x", Val.vlist [Val.vint 1, Val.vint 2]), ("k", Val.vint 9)]
    MemoryCache.empty 0

/-- Independent node `a_out` requiring only the input `x`. -/
def tieNodeA : NodeDef :=
  { fn := fun _ => Val.vint 1
    fnId := 31
    retAnn := .rother
    meta := { output_name := "a_out" }
    params := ["x"] }

/-- Independent node `b_out` requiring only the input `x`. -/
def tieNodeB : NodeDef :=
  { fn := fun _ => Val.vint 2
    fnId := 32
    retAnn := .rother
    meta := { output_name := "b_out" }
    params := ["x"] }

/-- Nodes with the same `output_name`, distinguishable by code identity. -/
def dupNodeA : NodeDef :=
  { fn := fun _ => Val.vint 1
    fnId := 21
    retAnn := .rother
    meta := { output_name := "x" }
    params := [] }

/-- A second node registering the same `output_name` as `dupNodeA`. -/
def dupNodeB : NodeDef :=
  { fn := fun _ => Val.vint 2
    fnId := 22
    retAnn := .rother
    meta := { output_name := "x" }
    params := [] }

/-- A cache-enabled identity node used against fallible backends. -/
def cachedIdNode : NodeDef :=
  { fn := fun kw => (dictGet "a" kw).getD .vnone
    fnId := 41
    retAnn := .rother
    meta := { output_name := "id_out", cache := true }
    params := ["a"] }

/-- A fresh run state over an empty in-memory backend. -/
def emptyRunState : RunState := { backend := MemoryCache.empty }

/-- A backend whose read operations raise `IOError` (writes succeed). -/
def raisingReadBackend : ExcBackend :=
  { get_meta := fun _ => .error "IOError: read failed"
    set_meta := fun _ => .ok ()
    get_blob := fun _ => .error "IOError: read failed"
    set_blob := fun _ _ => .ok () }

/-- A backend whose reads report a cold cache but whose write operations
raise `IOError`. -/
def raisingWriteBackend : ExcBackend :=
  { get_meta := fun _ => .ok none
    set_meta := fun _ => .error "IOError: write failed"
    get_blob := fun _ => .ok .vnone
    set_blob := fun _ _ => .error "IOError: write failed" }

end DaftFunc

namespace DaftFunc

/-! ## General lemmas about the embedded dictionaries -/

mutual

theorem SerVal.beq_refl : (s : SerVal) → SerVal.beq s s = true
  | .snum a => by simp [SerVal.beq]
  | .sstr a => by simp [SerVal.beq]
  | .sbool a => by simp [SerVal.beq]
  | .snull => by simp [SerVal.beq]
  | .slist xs => by simp [SerVal.beq, SerVal.beqList_refl xs]
  | .smap xs => by simp [SerVal.beq, SerVal.beqKVList_refl xs]

theorem SerVal.beqList_refl : (xs : List SerVal) → SerVal.beqList xs xs = true
  | [] => by simp [SerVal.beqList]
  | x :: xs => by simp [SerVal.beqList, SerVal.beq_refl x, SerVal.beqList_refl xs]

theorem SerVal.beqKVList_refl : (xs : List (String × SerVal)) → SerVal.beqKVList xs xs = true
  | [] => by simp [SerVal.beqKVList]
  | (k, v) :: xs => by simp [SerVal.beqKVList, SerVal.beq_refl v, SerVal.beqKVList_refl xs]

end


theorem dictGet_set_self (k : String) (v : α) (d : List (String × α)) :
    dictGet k (dictSet k v d) = some v := by
  induction d with
  | nil => simp [dictGet, dictSet]
  | cons kv rest ih =>
    obtain ⟨k', v'⟩ := kv
    by_cases h : k' = k
    · subst h
      simp [dictGet, dictSet]
    · simp [dictGet, dictSet, h, ih]

theorem dictGet_set_ne (k k' : String) (v : α) (d : List (String × α))
    (h : k' ≠ k) : dictGet k (dictSet k' v d) = dictGet k d := by
  induction d with
  | nil => simp [dictGet, dictSet, h]
  | cons kv rest ih =>
    obtain ⟨k'', v''⟩ := kv
    by_cases h2 : k'' = k'
    · subst h2
      simp [dictGet, dictSet, h]
    · by_cases h3 : k'' = k
      · subst h3
        simp [dictGet, dictSet, h2]
      · simp [dictGet, dictSet, h2, h3, ih]

/-! ## Branch characterizations of the per-node runner body -/

theorem nodeCacheKey_axis_none (cfg : CacheConfig) (node : NodeDef)
    (kwargs : List (String × Val)) (haxn : node.meta.map_axis = none) :
    nodeCacheKey cfg node kwargs = node.meta.output_name := by
  simp [nodeCacheKey, nodeItemKey, make_cache_key, haxn]

theorem runNode_uncached_eq (cfg : CacheConfig) (node : NodeDef)
    (outputs : List (String × Val)) (st : RunState)
    (h : (cfg.enabled && node.meta.cache) = false) :
    runNode cfg node outputs st =
      (dictSet node.meta.output_name (node.fn (nodeKwargs node outputs)) outputs,
       recordEvent st
         { node_name := node.meta.output_name, cache_enabled := false
           cache_hit := false, loaded := false }) := by
  simp [runNode, h]

theorem runNode_hit_eq (cfg : CacheConfig) (node : NodeDef)
    (outputs : List (String × Val)) (st : RunState) (s : NodeSignature) (v : Val)
    (hen : cfg.enabled = true) (hc : node.meta.cache = true)
    (haxn : node.meta.map_axis = none)
    (hm : st.backend.get_meta node.meta.output_name = some s)
    (hmatch : signatures_match (nodeSig cfg node outputs st) s = true)
    (hb : st.backend.get_blob node.meta.output_name = v) (hv : v ≠ .vnone) :
    runNode cfg node outputs st =
      (dictSet node.meta.output_name v outputs,
       recordEvent
         { st with
           sigs := dictSet node.meta.output_name
             (sigStr (nodeSig cfg node outputs st)) st.sigs
           trace := st.trace ++ [BackendOp.getMetaOp node.meta.output_name,
             BackendOp.getBlobOp node.meta.output_name]
           sigComputations := st.sigComputations + 1
           clock := st.clock + 1 }
         { node_name := node.meta.output_name, cache_enabled := true
           cache_hit := true, loaded := true }) := by
  have hkey := nodeCacheKey_axis_none cfg node (nodeKwargs node outputs) haxn
  cases v with
  | vnone => exact absurd rfl hv
  | vint n => simp [runNode, hen, hc, hkey, hm, hmatch, hb]
  | vstr a => simp [runNode, hen, hc, hkey, hm, hmatch, hb]
  | vbool b => simp [runNode, hen, hc, hkey, hm, hmatch, hb]
  | vlist xs => simp [runNode, hen, hc, hkey, hm, hmatch, hb]
  | vobj ck oid => simp [runNode, hen, hc, hkey, hm, hmatch, hb]

theorem runNode_exec_eq (cfg : CacheConfig) (node : NodeDef)
    (outputs : List (String × Val)) (st : RunState)
    (hen : cfg.enabled = true) (hc : node.meta.cache = true)
    (haxn : node.meta.map_axis = none)
    (hmiss : match st.backend.get_meta node.meta.output_name with
      | some s => signatures_match (nodeSig cfg node outputs st) s = false
      | none => True) :
    runNode cfg node outputs st =
      (dictSet node.meta.output_name (node.fn (nodeKwargs node outputs)) outputs,
       recordEvent
         { st with
           backend := (st.backend.set_blob node.meta.output_name
               (node.fn (nodeKwargs node outputs))).set_meta
               (nodeSig cfg node outputs st)
           sigs := dictSet node.meta.output_name
             (sigStr (nodeSig cfg node outputs st)) st.sigs
           trace := st.trace ++ [BackendOp.getMetaOp node.meta.output_name,
             BackendOp.setBlobOp node.meta.output_name,
             BackendOp.setMetaOp node.meta.output_name]
           sigComputations := st.sigComputations + 1
           clock := st.clock + 1 }
         { node_name := node.meta.output_name, cache_enabled := true
           cache_hit := false, loaded := false }) := by
  have hkey := nodeCacheKey_axis_none cfg node (nodeKwargs node outputs) haxn
  cases hsm : st.backend.get_meta node.meta.output_name with
  | none => simp [runNode, runNodeExec, hen, hc, hkey, hsm]
  | some s =>
    rw [hsm] at hmiss
    simp [runNode, runNodeExec, hen, hc, hkey, hsm, hmiss]

theorem runNode_hit_noneblob_eq (cfg : CacheConfig) (node : NodeDef)
    (outputs : List (String × Val)) (st : RunState) (s : NodeSignature)
    (hen : cfg.enabled = true) (hc : node.meta.cache = true)
    (haxn : node.meta.map_axis = none)
    (hm : st.backend.get_meta node.meta.output_name = some s)
    (hmatch : signatures_match (nodeSig cfg node outputs st) s = true)
    (hb : st.backend.get_blob node.meta.output_name = .vnone) :
    runNode cfg node outputs st =
      (dictSet node.meta.output_name (node.fn (nodeKwargs node outputs)) outputs,
       recordEvent
         { st with
           backend := (st.backend.set_blob node.meta.output_name
               (node.fn (nodeKwargs node outputs))).set_meta
               (nodeSig cfg node outputs st)
           sigs := dictSet node.meta.output_name
             (sigStr (nodeSig cfg node outputs st)) st.sigs
           trace := st.trace ++ [BackendOp.getMetaOp node.meta.output_name,
             BackendOp.getBlobOp node.meta.output_name,
             BackendOp.setBlobOp node.meta.output_name,
             BackendOp.setMetaOp node.meta.output_name]
           sigComputations := st.sigComputations + 1
           clock := st.clock + 1 }
         { node_name := node.meta.output_name, cache_enabled := true
           cache_hit := false, loaded := false }) := by
  have hkey := nodeCacheKey_axis_none cfg node (nodeKwargs node outputs) haxn
  simp [runNode, runNodeExec, hen, hc, hkey, hm, hmatch, hb]

theorem recordEvent_backend (st : RunState) (e : CacheEvent) :
    (recordEvent st e).backend = st.backend := by
  cases h : st.stats <;> simp [recordEvent, h]

theorem recordEvent_sigs (st : RunState) (e : CacheEvent) :
    (recordEvent st e).sigs = st.sigs := by
  cases h : st.stats <;> simp [recordEvent, h]

theorem recordEvent_trace (st : RunState) (e : CacheEvent) :
    (recordEvent st e).trace = st.trace := by
  cases h : st.stats <;> simp [recordEvent, h]

theorem recordEvent_sigComputations (st : RunState) (e : CacheEvent) :
    (recordEvent st e).sigComputations = st.sigComputations := by
  cases h : st.stats <;> simp [recordEvent, h]

theorem recordEvent_stats (st : RunState) (e : CacheEvent) :
    (recordEvent st e).stats = st.stats.map (fun evs => evs ++ [e]) := by
  cases h : st.stats <;> simp [recordEvent, h]

theorem nodeSig_node_name (cfg : CacheConfig) (node : NodeDef)
    (outputs : List (String × Val)) (st : RunState)
    (haxn : node.meta.map_axis = none) :
    (nodeSig cfg node outputs st).node_name = node.meta.output_name := by
  simp [nodeSig, compute_signature, nodeCacheKey_axis_none _ _ _ haxn]

theorem processNodes_cons (cfg : CacheConfig) (n : NodeDef) (rest : List NodeDef)
    (env : List (String × Val)) (st : RunState) :
    processNodes cfg (n :: rest) env st
      = processNodes cfg rest (runNode cfg n env st).1 (runNode cfg n env st).2 := rfl

theorem processNodes_nil (cfg : CacheConfig) (env : List (String × Val)) (st : RunState) :
    processNodes cfg [] env st = (env, st) := rfl

theorem runNode_no_cache_frame (cfg : CacheConfig) (node : NodeDef)
    (outputs : List (String × Val)) (st : RunState)
    (h : (cfg.enabled && node.meta.cache) = false) :
    (runNode cfg node outputs st).2.backend = st.backend
    ∧ (runNode cfg node outputs st).2.trace = st.trace
    ∧ (runNode cfg node outputs st).2.sigComputations = st.sigComputations := by
  rw [runNode_uncached_eq cfg node outputs st h]
  exact ⟨recordEvent_backend _ _, recordEvent_trace _ _, recordEvent_sigComputations _ _⟩

theorem processNodes_disabled_frame (cfg : CacheConfig) (order : List NodeDef)
    (hen : cfg.enabled = false) :
    ∀ (env : List (String × Val)) (st : RunState),
      (processNodes cfg order env st).2.backend = st.backend
      ∧ (processNodes cfg order env st).2.trace = st.trace
      ∧ (processNodes cfg order env st).2.sigComputations = st.sigComputations := by
  induction order with
  | nil => intro env st; exact ⟨rfl, rfl, rfl⟩
  | cons n rest ih =>
    intro env st
    have h := runNode_no_cache_frame cfg n env st (by simp [hen])
    have h2 := ih (runNode cfg n env st).1 (runNode cfg n env st).2
    rw [processNodes_cons]
    exact ⟨h2.1.trans h.1, h2.2.1.trans h.2.1, h2.2.2.trans h.2.2⟩

theorem runSingle_disabled_frame (cfg : CacheConfig) (enum : List NodeDef)
    (inputs : List (String × Val)) (st : RunState) (hen : cfg.enabled = false) :
    (runSingle cfg enum inputs st).2.backend = st.backend
    ∧ (runSingle cfg enum inputs st).2.trace = st.trace
    ∧ (runSingle cfg enum inputs st).2.sigComputations = st.sigComputations := by
  unfold runSingle
  cases htopo : topoEnum enum (dictKeys inputs) with
  | error e => exact ⟨rfl, rfl, rfl⟩
  | ok order => exact processNodes_disabled_frame cfg order hen inputs st

theorem loopItems_disabled_frame (cfg : CacheConfig) (enum : List NodeDef)
    (constants : List (String × Val)) (map_axis : String)
    (hen : cfg.enabled = false) :
    ∀ (items : List Val) (st : RunState) (acc : List (List (String × Val))),
      (loopItems cfg enum constants map_axis items st acc).2.backend = st.backend
      ∧ (loopItems cfg enum constants map_axis items st acc).2.trace = st.trace
      ∧ (loopItems cfg enum constants map_axis items st acc).2.sigComputations
          = st.sigComputations := by
  intro items
  induction items with
  | nil => intro st acc; exact ⟨rfl, rfl, rfl⟩
  | cons it rest ih =>
    intro st acc
    have h := runSingle_disabled_frame cfg enum (dictSet map_axis it constants)
      { st with sigs := [] } hen
    simp only [loopItems]
    cases hrun : runSingle cfg enum (dictSet map_axis it constants)
        { st with sigs := [] } with
    | mk res st' =>
      rw [hrun] at h
      simp only at h
      cases res with
      | error e => exact h
      | ok per_out =>
        have h2 := ih st' (acc ++ [per_out])
        exact ⟨h2.1.trans h.1, h2.2.1.trans h.2.1, h2.2.2.trans h.2.2⟩

theorem loopItems_frame_post (cfg : CacheConfig) (enum : List NodeDef)
    (constants : List (String × Val)) (map_axis : String)
    (hen : cfg.enabled = false) (items : List Val) (st : RunState)
    (res : Except String (List (List (String × Val)))) (st' : RunState)
    (heq : loopItems cfg enum constants map_axis items st [] = (res, st')) :
    st'.backend = st.backend ∧ st'.trace = st.trace
    ∧ st'.sigComputations = st.sigComputations := by
  have h := loopItems_disabled_frame cfg enum constants map_axis hen items st []
  rw [heq] at h
  exact h

theorem runLocalLoop_disabled_frame (cfg : CacheConfig) (enum : List NodeDef)
    (inputs : List (String × Val)) (map_axis : String) (st : RunState)
    (hen : cfg.enabled = false) :
    (runLocalLoop cfg enum inputs map_axis st).2.backend = st.backend
    ∧ (runLocalLoop cfg enum inputs map_axis st).2.trace = st.trace
    ∧ (runLocalLoop cfg enum inputs map_axis st).2.sigComputations
        = st.sigComputations := by
  simp only [runLocalLoop]
  repeat' split
  · exact ⟨rfl, rfl, rfl⟩
  · exact ⟨rfl, rfl, rfl⟩
  · exact ⟨rfl, rfl, rfl⟩
  · exact loopItems_frame_post cfg enum _ map_axis hen _ st _ _ (by assumption)
  · exact loopItems_frame_post cfg enum _ map_axis hen _ st _ _ (by assumption)
  · exact loopItems_frame_post cfg enum _ map_axis hen _ st _ _ (by assumption)
  · exact ⟨rfl, rfl, rfl⟩

/-! ## Heap frame lemmas (no run path writes a pre-existing dictionary) -/

theorem list_getD_append_left (l l2 : List α) (a : Nat) (d : α)
    (h : a < l.length) : (l ++ l2).getD a d = l.getD a d := by
  induction l generalizing a with
  | nil => simp at h
  | cons x xs ih =>
    cases a with
    | zero => rfl
    | succ a =>
      simp only [List.length_cons, Nat.succ_lt_succ_iff] at h
      simpa using ih a h

theorem list_getD_set_ne (l : List α) (i a : Nat) (x : α) (d : α)
    (h : i ≠ a) : (l.set i x).getD a d = l.getD a d := by
  induction l generalizing i a with
  | nil => rfl
  | cons y ys ih =>
    cases i with
    | zero =>
      cases a with
      | zero => exact absurd rfl h
      | succ a => rfl
    | succ i =>
      cases a with
      | zero => rfl
      | succ a => simpa using ih i a (by omega)

/-- All reads below `n` are preserved and the heap only grows. -/
def preservesBelow (n : Nat) (s s' : Store) : Prop :=
  s.mem.length ≤ s'.mem.length ∧ ∀ a, a < n → s'.read a = s.read a

theorem preservesBelow_refl (n : Nat) (s : Store) : preservesBelow n s s :=
  ⟨Nat.le_refl _, fun _ _ => rfl⟩

theorem preservesBelow_trans {n : Nat} {s s' s'' : Store}
    (h1 : preservesBelow n s s') (h2 : preservesBelow n s' s'') :
    preservesBelow n s s'' :=
  ⟨h1.1.trans h2.1, fun a ha => (h2.2 a ha).trans (h1.2 a ha)⟩

theorem alloc_preservesBelow (n : Nat) (s : Store) (d : List (String × Val))
    (h : n ≤ s.mem.length) : preservesBelow n s (s.alloc d).1 := by
  refine ⟨by simp [Store.alloc], fun a ha => ?_⟩
  simp only [Store.alloc, Store.read]
  exact list_getD_append_left s.mem [d] a [] (by omega)

theorem write_preservesBelow (n : Nat) (s : Store) (a : Nat)
    (d : List (String × Val)) (h : n ≤ a) : preservesBelow n s (s.write a d) := by
  refine ⟨by simp [Store.write], fun b hb => ?_⟩
  simp only [Store.write, Store.read]
  exact list_getD_set_ne s.mem a b d [] (by omega)

theorem processNodesSt_preservesBelow (cfg : CacheConfig) (order : List NodeDef)
    (n outAddr : Nat) (hout : n ≤ outAddr) :
    ∀ (store : Store) (st : RunState),
      preservesBelow n store (processNodesSt cfg order outAddr store st).1 := by
  induction order with
  | nil => intro store st; exact preservesBelow_refl n store
  | cons nd rest ih =>
    intro store st
    have h1 := write_preservesBelow n store outAddr
      (runNode cfg nd (store.read outAddr) st).1 hout
    have h2 := ih (store.write outAddr (runNode cfg nd (store.read outAddr) st).1)
      (runNode cfg nd (store.read outAddr) st).2
    exact preservesBelow_trans h1 h2

theorem runSingleSt_preservesBelow (cfg : CacheConfig) (enum : List NodeDef)
    (inAddr n : Nat) (store : Store) (st : RunState) (h : n ≤ store.mem.length) :
    preservesBelow n store (runSingleSt cfg enum inAddr store st).2.1 := by
  have halloc := alloc_preservesBelow n store (store.read inAddr) h
  simp only [runSingleSt]
  split
  · exact halloc
  · exact preservesBelow_trans halloc
      (processNodesSt_preservesBelow cfg _ n store.mem.length h _ st)

theorem loopItemsSt_preservesBelow (cfg : CacheConfig) (enum : List NodeDef)
    (constAddr : Nat) (map_axis : String) (n : Nat) :
    ∀ (items : List Val) (store : Store) (st : RunState) (acc : List Nat),
      n ≤ store.mem.length →
      preservesBelow n store
        (loopItemsSt cfg enum constAddr map_axis items store st acc).2.1 := by
  intro items
  induction items with
  | nil => intro store st acc _; exact preservesBelow_refl n store
  | cons it rest ih =>
    intro store st acc h
    have halloc := alloc_preservesBelow n store
      (dictSet map_axis it (store.read constAddr)) h
    have hrs := runSingleSt_preservesBelow cfg enum
      (store.alloc (dictSet map_axis it (store.read constAddr))).2 n
      (store.alloc (dictSet map_axis it (store.read constAddr))).1
      { st with sigs := [] } (h.trans halloc.1)
    simp only [loopItemsSt]
    split
    · rename_i e store2 st2 hrun
      rw [hrun] at hrs
      exact preservesBelow_trans halloc hrs
    · rename_i outAddr store2 st2 hrun
      rw [hrun] at hrs
      have hcomp := preservesBelow_trans halloc hrs
      exact preservesBelow_trans hcomp
        (ih store2 st2 (acc ++ [outAddr]) (h.trans hcomp.1))

theorem runLocalLoopSt_preservesBelow (cfg : CacheConfig) (enum : List NodeDef)
    (inAddr : Nat) (map_axis : String) (n : Nat) (store : Store) (st : RunState)
    (h : n ≤ store.mem.length) :
    preservesBelow n store (runLocalLoopSt cfg enum inAddr map_axis store st).2.1 := by
  have halloc := alloc_preservesBelow n store
    ((store.read inAddr).filter fun kv => kv.1 != map_axis) h
  simp only [runLocalLoopSt]
  split
  · exact preservesBelow_refl n store
  · split
    · exact halloc
    · rename_i it0 tail hdg
      split
      · exact halloc
      · rename_i order htopo
        have hloop := loopItemsSt_preservesBelow cfg enum
          (store.alloc ((store.read inAddr).filter fun kv => kv.1 != map_axis)).2
          map_axis n (it0 :: tail)
          (store.alloc ((store.read inAddr).filter fun kv => kv.1 != map_axis)).1
          st [] (h.trans halloc.1)
        split
        · rename_i e store2 st2 hli
          rw [hli] at hloop
          exact preservesBelow_trans halloc hloop
        · rename_i aggAddrs store2 st2 hli
          rw [hli] at hloop
          have hcomp := preservesBelow_trans halloc hloop
          have hm := alloc_preservesBelow n store2
            (store2.read
              (store.alloc ((store.read inAddr).filter fun kv => kv.1 != map_axis)).2)
            (h.trans hcomp.1)
          have hcomp2 := preservesBelow_trans hcomp hm
          split
          · refine preservesBelow_trans hcomp2 (write_preservesBelow n _ _ _ ?_)
            exact h.trans hcomp.1
          · exact hcomp2
  · exact preservesBelow_refl n store

/-! ## Claim theorems -/

/-- C8: for a cache-enabled node (map-axis free, so the cache key is the
output name) whose stored metadata matches the newly computed signature
but whose blob reads back as `None` (absent, or a stored `None` — the
backend cannot tell them apart), the runner treats the lookup as a miss:
it re-executes the node, binds the fresh result, and rewrites both the
blob store and the metadata store, as the recorded backend-call trace
shows. -/
theorem matching_meta_none_blob_reexecutes (cfg : CacheConfig) (node : NodeDef)
    (outputs : List (String × Val)) (st : RunState) (s : NodeSignature)
    (hen : cfg.enabled = true) (hc : node.meta.cache = true)
    (haxn : node.meta.map_axis = none)
    (hm : st.backend.get_meta node.meta.output_name = some s)
    (hmatch : signatures_match (nodeSig cfg node outputs st) s = true)
    (hb : st.backend.get_blob node.meta.output_name = .vnone) :
    (runNode cfg node outputs st).1
        = dictSet node.meta.output_name (node.fn (nodeKwargs node outputs)) outputs
    ∧ dictGet node.meta.output_name (runNode cfg node outputs st).2.backend.blobs
        = some (node.fn (nodeKwargs node outputs))
    ∧ dictGet node.meta.output_name (runNode cfg node outputs st).2.backend.meta
        = some (nodeSig cfg node outputs st)
    ∧ (runNode cfg node outputs st).2.trace
        = st.trace ++ [BackendOp.getMetaOp node.meta.output_name,
            BackendOp.getBlobOp node.meta.output_name,
            BackendOp.setBlobOp node.meta.output_name,
            BackendOp.setMetaOp node.meta.output_name] := by
  rw [runNode_hit_noneblob_eq cfg node outputs st s hen hc haxn hm hmatch hb]
  refine ⟨rfl, ?_, ?_, ?_⟩
  · rw [recordEvent_backend]
    show dictGet node.meta.output_name
      ((st.backend.set_blob node.meta.output_name
          (node.fn (nodeKwargs node outputs))).set_meta
        (nodeSig cfg node outputs st)).blobs = _
    simp [MemoryCache.set_meta, MemoryCache.set_blob, dictGet_set_self]
  · rw [recordEvent_backend]
    show dictGet node.meta.output_name
      ((st.backend.set_blob node.meta.output_name
          (node.fn (nodeKwargs node outputs))).set_meta
        (nodeSig cfg node outputs st)).meta = _
    simp [MemoryCache.set_meta, MemoryCache.set_blob,
      nodeSig_node_name cfg node outputs st haxn, dictGet_set_self]
  · rw [recordEvent_trace]

/-- C8 witness: the `None`-returning node after its first run — the
stored signature (computed at clock 0) matches the one recomputed at
clock 34, the stored blob is `None`, and the node re-executes and
rewrites both stores. -/
theorem matching_meta_none_blob_reexecutes_witness :
    (cacheOnCfg.enabled = true
      ∧ noneNode.meta.cache = true
      ∧ noneNode.meta.map_axis = none
      ∧ (RunState.mk noneRun1.2.backend [] none [] 0 34).backend.get_meta
          noneNode.meta.output_name
          = some (compute_signature "n_out" 7 .rnonetype [("a", Val.vint 1)] [] none 2 0)
      ∧ signatures_match
          (nodeSig cacheOnCfg noneNode [("a", Val.vint 1)]
            (RunState.mk noneRun1.2.backend [] none [] 0 34))
          (compute_signature "n_out" 7 .rnonetype [("a", Val.vint 1)] [] none 2 0) = true
      ∧ (RunState.mk noneRun1.2.backend [] none [] 0 34).backend.get_blob
          noneNode.meta.output_name = .vnone)
    ∧ ((runNode cacheOnCfg noneNode [("a", Val.vint 1)]
          (RunState.mk noneRun1.2.backend [] none [] 0 34)).1
        = dictSet noneNode.meta.output_name
            (noneNode.fn (nodeKwargs noneNode [("a", Val.vint 1)])) [("a", Val.vint 1)]
      ∧ dictGet noneNode.meta.output_name
          (runNode cacheOnCfg noneNode [("a", Val.vint 1)]
            (RunState.mk noneRun1.2.backend [] none [] 0 34)).2.backend.blobs
        = some (noneNode.fn (nodeKwargs noneNode [("a", Val.vint 1)]))
      ∧ dictGet noneNode.meta.output_name
          (runNode cacheOnCfg noneNode [("a", Val.vint 1)]
            (RunState.mk noneRun1.2.backend [] none [] 0 34)).2.backend.meta
        = some (nodeSig cacheOnCfg noneNode [("a", Val.vint 1)]
            (RunState.mk noneRun1.2.backend [] none [] 0 34))
      ∧ (runNode cacheOnCfg noneNode [("a", Val.vint 1)]
          (RunState.mk noneRun1.2.backend [] none [] 0 34)).2.trace
        = [] ++ [BackendOp.getMetaOp noneNode.meta.output_name,
            BackendOp.getBlobOp noneNode.meta.output_name,
            BackendOp.setBlobOp noneNode.meta.output_name,
            BackendOp.setMetaOp noneNode.meta.output_name]) :=
  ⟨⟨rfl, rfl, rfl, rfl, rfl, rfl⟩,
   matching_meta_none_blob_reexecutes cacheOnCfg noneNode [("a", Val.vint 1)]
     (RunState.mk noneRun1.2.backend [] none [] 0 34)
     (compute_signature "n_out" 7 .rnonetype [("a", Val.vint 1)] [] none 2 0)
     rfl rfl rfl rfl rfl rfl⟩

/-- C4 amended: a backend exception propagates out of the run — the
runner wraps no backend call in a handler, so an error raised by
`get_meta` (read) aborts the run with that error, and an error raised by
`set_blob` (write, after a cold-cache read) likewise aborts the run
instead of being logged; in neither case is the computed result
returned. -/
theorem backend_error_propagates (cfg : CacheConfig) (b : ExcBackend)
    (node : NodeDef) (inputs : List (String × Val)) (st : RunStateE) (e : String)
    (hen : cfg.enabled = true) (hc : node.meta.cache = true)
    (haxn : node.meta.map_axis = none)
    (havail : (requiredParams node).all (dictKeys inputs).contains = true) :
    (b.get_meta node.meta.output_name = .error e →
      runSingleE cfg b [node] inputs st = .error e)
    ∧ (b.get_meta node.meta.output_name = .ok none →
      b.set_blob node.meta.output_name (node.fn (nodeKwargs node inputs)) = .error e →
      runSingleE cfg b [node] inputs st = .error e) := by
  have htopo : topoEnum [node] (dictKeys inputs) = .ok [node] := by
    simp [topoEnum, topoLoop, topoPass, havail]
  constructor
  · intro hr
    simp [runSingleE, htopo, List.foldlM, runNodeE, hen, hc, haxn,
      make_cache_key, hr, Bind.bind, Except.bind, pure, Except.pure]
  · intro hr hw
    simp only [runSingleE, htopo, List.foldlM, runNodeE, runNodeExecE,
      hen, hc, haxn, make_cache_key, hr, nodeKwargs] at *
    simp [hw, Bind.bind, Except.bind, pure, Except.pure, signatures_match]

/-- C4 amended witness: the cache-enabled identity node against the
raising-read backend. -/
theorem backend_error_propagates_witness :
    (cacheOnCfg.enabled = true
      ∧ cachedIdNode.meta.cache = true
      ∧ cachedIdNode.meta.map_axis = none
      ∧ (requiredParams cachedIdNode).all
          (dictKeys [("a", Val.vint 1)]).contains = true)
    ∧ ((raisingReadBackend.get_meta cachedIdNode.meta.output_name
          = .error "IOError: read failed" →
        runSingleE cacheOnCfg raisingReadBackend [cachedIdNode]
          [("a", Val.vint 1)] {} = .error "IOError: read failed")
      ∧ (raisingReadBackend.get_meta cachedIdNode.meta.output_name = .ok none →
        raisingReadBackend.set_blob cachedIdNode.meta.output_name
            (cachedIdNode.fn (nodeKwargs cachedIdNode [("a", Val.vint 1)]))
          = .error "IOError: read failed" →
        runSingleE cacheOnCfg raisingReadBackend [cachedIdNode]
          [("a", Val.vint 1)] {} = .error "IOError: read failed")) :=
  ⟨⟨rfl, rfl, rfl, by decide⟩,
   backend_error_propagates cacheOnCfg raisingReadBackend cachedIdNode
     [("a", Val.vint 1)] {} "IOError: read failed" rfl rfl rfl (by decide)⟩

/-- C1: with caching enabled on the two-node graph
`foo(a,b) = a + b`, `bar(foo_out,c) = foo_out * c` (both cache-enabled),
four successive runs against the same backend give:
run 1 (`a=1,b=2,c=3`) `bar_out = 9`, both nodes miss;
run 2 (identical) `bar_out = 9`, both nodes hit;
run 3 (`c=5`) `bar_out = 15`, `foo` hits, `bar` misses;
run 4 (`a=10`) `bar_out = 60`, both nodes miss. -/
theorem concrete_scenario_four_runs :
    (runOutput scenarioRun1 "bar_out" = some (.vint 9)
      ∧ runEvents scenarioRun1 =
        [{ node_name := "foo_out", cache_enabled := true, cache_hit := false, loaded := false },
         { node_name := "bar_out", cache_enabled := true, cache_hit := false, loaded := false }])
    ∧ (runOutput scenarioRun2 "bar_out" = some (.vint 9)
      ∧ runEvents scenarioRun2 =
        [{ node_name := "foo_out", cache_enabled := true, cache_hit := true, loaded := true },
         { node_name := "bar_out", cache_enabled := true, cache_hit := true, loaded := true }])
    ∧ (runOutput scenarioRun3 "bar_out" = some (.vint 15)
      ∧ runEvents scenarioRun3 =
        [{ node_name := "foo_out", cache_enabled := true, cache_hit := true, loaded := true },
         { node_name := "bar_out", cache_enabled := true, cache_hit := false, loaded := false }])
    ∧ (runOutput scenarioRun4 "bar_out" = some (.vint 60)
      ∧ runEvents scenarioRun4 =
        [{ node_name := "foo_out", cache_enabled := true, cache_hit := false, loaded := false },
         { node_name := "bar_out", cache_enabled := true, cache_hit := false, loaded := false }]) :=
  ⟨⟨rfl, rfl⟩, ⟨rfl, rfl⟩, ⟨rfl, rfl⟩, ⟨rfl, rfl⟩⟩

/-- C2 counterexample: for the cache-enabled node whose function returns
`None`, the second identical run against the first run's backend records
a cache miss for that node (the stored blob `None` is indistinguishable
from an absent blob, so the node never hits), refuting the claim that the
second run's statistics show a hit for every cache-enabled node. -/
theorem second_run_misses_on_none_output :
    runEvents noneRun2 =
      [{ node_name := "n_out", cache_enabled := true, cache_hit := false, loaded := false }]
    ∧ runOutput noneRun2 "n_out" = some .vnone := ⟨rfl, rfl⟩

/-- C3 counterexample: two nodes `a_out`, `b_out` both eligible from the
input `x`, registered in the order `[a_out, b_out]`.  Under the backing
set's iteration order `[b_out, a_out]` (Python set iteration order is
implementation-defined; `NodeDef` hashes are `id`-based, and the repo's
own `test_registry.py` asserts ties "can be in any order"), the sort
returns `[b_out, a_out]` — not the registration order. -/
theorem topo_tie_not_registration_order :
    (((Pipeline.mk [] []).add tieNodeA).add tieNodeB).nodes.map
        (fun n => n.meta.output_name) = ["a_out", "b_out"]
    ∧ (topoEnum [tieNodeB, tieNodeA] ["x"]).map
        (fun l => l.map fun n => n.meta.output_name) = .ok ["b_out", "a_out"]
    ∧ ("b_out" : String) ≠ "a_out" := ⟨rfl, rfl, by decide⟩

/-- C4 counterexample: against a backend that raises `IOError` on reads,
a run of a cache-enabled node aborts with that error instead of treating
it as a miss; against a backend that raises on writes, the run likewise
aborts instead of logging and returning the computed result
(`_run_single` wraps no backend call in a handler). -/
theorem backend_error_crashes_run :
    runSingleE cacheOnCfg raisingReadBackend [cachedIdNode]
      [("a", Val.vint 1)] {} = .error "IOError: read failed"
    ∧ runSingleE cacheOnCfg raisingWriteBackend [cachedIdNode]
      [("a", Val.vint 1)] {} = .error "IOError: write failed" := ⟨rfl, rfl⟩

/-- C5 counterexample: registering a second node with the output name
`"x"` raises nothing — `Pipeline.add` is total and performs no
duplicate check; both nodes are appended and the index maps `"x"` to the
most recently registered node. -/
theorem duplicate_output_registration_accepted :
    (((Pipeline.mk [] []).add dupNodeA).add dupNodeB).nodes.map
        (fun n => n.meta.output_name) = ["x", "x"]
    ∧ (dictGet "x" (((Pipeline.mk [] []).add dupNodeA).add dupNodeB).by_output).map
        (fun n => n.fnId) = some 22 := ⟨rfl, rfl⟩

/-- C5 amended: duplicate registration is accepted, the node list keeps
both registrations in order, and the `by_output` index maps the output
name to the most recently added node (last write wins, §4.1). -/
theorem add_duplicate_output_last_write_wins (p : Pipeline) (n : NodeDef) :
    (p.add n).nodes = p.nodes ++ [n]
    ∧ dictGet n.meta.output_name (p.add n).by_output = some n :=
  ⟨rfl, dictGet_set_self _ _ _⟩

/-- C7: with the cache configuration disabled, a run — whatever the
graph, inputs, mode, and dispatch path — leaves the backend exactly as it
was, performs no backend calls (empty call trace) and computes no
signatures; and independently, for a node whose own cache flag is off,
the per-node step performs no backend call and no signature computation
regardless of the configuration. -/
theorem disabled_cache_zero_overhead (cfg : CacheConfig) (mode : Mode)
    (thr : Nat) (nodes enum : List NodeDef) (inputs : List (String × Val))
    (backend : MemoryCache) (clock : Nat) (hen : cfg.enabled = false) :
    ((Runner.run cfg mode thr nodes enum inputs backend clock).2.backend = backend
      ∧ (Runner.run cfg mode thr nodes enum inputs backend clock).2.trace = []
      ∧ (Runner.run cfg mode thr nodes enum inputs backend clock).2.sigComputations = 0)
    ∧ (∀ (cfg2 : CacheConfig) (node : NodeDef) (outputs : List (String × Val))
        (st : RunState), node.meta.cache = false →
        (runNode cfg2 node outputs st).2.backend = st.backend
        ∧ (runNode cfg2 node outputs st).2.trace = st.trace
        ∧ (runNode cfg2 node outputs st).2.sigComputations = st.sigComputations) := by
  constructor
  · simp only [Runner.run]
    repeat' split
    any_goals exact runSingle_disabled_frame cfg enum inputs _ hen
    any_goals exact runLocalLoop_disabled_frame cfg enum inputs _ _ hen
    all_goals exact ⟨rfl, rfl, rfl⟩
  · intro cfg2 node outputs st hc
    exact runNode_no_cache_frame cfg2 node outputs st (by simp [hc])

/-- C7 witness: the scenario graph run in auto mode with a disabled
configuration against an empty backend. -/
theorem disabled_cache_zero_overhead_witness :
    (CacheConfig.enabled {} = false)
    ∧ (((Runner.run {} .mauto 2 scenarioNodes scenarioNodes
          [("a", Val.vint 1), ("b", Val.vint 2), ("c", Val.vint 3)]
          MemoryCache.empty 0).2.backend = MemoryCache.empty
      ∧ (Runner.run {} .mauto 2 scenarioNodes scenarioNodes
          [("a", Val.vint 1), ("b", Val.vint 2), ("c", Val.vint 3)]
          MemoryCache.empty 0).2.trace = []
      ∧ (Runner.run {} .mauto 2 scenarioNodes scenarioNodes
          [("a", Val.vint 1), ("b", Val.vint 2), ("c", Val.vint 3)]
          MemoryCache.empty 0).2.sigComputations = 0)
    ∧ (∀ (cfg2 : CacheConfig) (node : NodeDef) (outputs : List (String × Val))
        (st : RunState), node.meta.cache = false →
        (runNode cfg2 node outputs st).2.backend = st.backend
        ∧ (runNode cfg2 node outputs st).2.trace = st.trace
        ∧ (runNode cfg2 node outputs st).2.sigComputations = st.sigComputations)) :=
  ⟨rfl,
   disabled_cache_zero_overhead {} .mauto 2 scenarioNodes scenarioNodes
     [("a", Val.vint 1), ("b", Val.vint 2), ("c", Val.vint 3)]
     MemoryCache.empty 0 rfl⟩

theorem runSt_preservesBelow (cfg : CacheConfig) (mode : Mode) (thr : Nat)
    (nodes enum : List NodeDef) (inAddr n : Nat) (store : Store)
    (backend : MemoryCache) (clock : Nat) (h : n ≤ store.mem.length) :
    preservesBelow n store (runSt cfg mode thr nodes enum inAddr store backend clock).2.1 := by
  simp only [runSt]
  repeat' split
  any_goals exact preservesBelow_refl n store
  any_goals exact runSingleSt_preservesBelow cfg enum inAddr n store _ h
  all_goals exact runLocalLoopSt_preservesBelow cfg enum inAddr _ n store _ h

/-- C10: no run path writes the caller's inputs dictionary.  In the heap
model every environment the runner writes (`outputs = dict(inputs)`, the
loop's `constants` and per-item dictionaries, the final `merged`) is a
freshly allocated copy, so after a run — on any dispatch path and with
any configuration — the dictionary at the caller's address holds exactly
the keys and values it held before the call.  (The Daft-delegation
branch proper hands the data to the out-of-scope external batch executor,
spec §6; with the `daft` dependency absent it falls back to the per-item
loop, which is the path modelled here.) -/
theorem run_does_not_mutate_inputs (cfg : CacheConfig) (mode : Mode) (thr : Nat)
    (nodes enum : List NodeDef) (inAddr : Nat) (store : Store)
    (backend : MemoryCache) (clock : Nat) (h : inAddr < store.mem.length) :
    (runSt cfg mode thr nodes enum inAddr store backend clock).2.1.read inAddr
      = store.read inAddr :=
  (runSt_preservesBelow cfg mode thr nodes enum inAddr (inAddr + 1) store backend
    clock h).2 inAddr (Nat.lt_succ_self _)

/-- C10 witness: the cached scenario graph run against a heap holding the
inputs dictionary at address 0. -/
theorem run_does_not_mutate_inputs_witness :
    0 < (Store.mk [[("a", Val.vint 1), ("b", Val.vint 2), ("c", Val.vint 3)]]).mem.length
    ∧ (runSt cacheOnCfg .mauto 2 scenarioNodes scenarioNodes 0
        (Store.mk [[("a", Val.vint 1), ("b", Val.vint 2), ("c", Val.vint 3)]])
        MemoryCache.empty 0).2.1.read 0
      = (Store.mk [[("a", Val.vint 1), ("b", Val.vint 2), ("c", Val.vint 3)]]).read 0 :=
  ⟨by decide,
   run_does_not_mutate_inputs cacheOnCfg .mauto 2 scenarioNodes scenarioNodes 0
     (Store.mk [[("a", Val.vint 1), ("b", Val.vint 2), ("c", Val.vint 3)]])
     MemoryCache.empty 0 (by decide)⟩

theorem contains_append_left (l l2 : List String) (a : String)
    (h : l.contains a = true) : (l ++ l2).contains a = true := by
  induction l with
  | nil => simp [List.contains] at h
  | cons b bs ih =>
    simp only [List.cons_append, List.contains_cons] at h ⊢
    rcases Bool.or_eq_true_iff.mp h with h1 | h1
    · exact Bool.or_eq_true_iff.mpr (.inl h1)
    · exact Bool.or_eq_true_iff.mpr (.inr (ih h1))

theorem all_contains_append (ps av ex : List String)
    (h : ps.all av.contains = true) : ps.all (av ++ ex).contains = true := by
  rw [List.all_eq_true] at h ⊢
  intro p hp
  exact contains_append_left av ex p (h p hp)

theorem topoPass_all_eligible (enum : List NodeDef) :
    ∀ available : List String,
      (∀ n ∈ enum, (requiredParams n).all available.contains = true) →
      (topoPass available enum).2.1 = [] ∧ (topoPass available enum).2.2 = enum := by
  induction enum with
  | nil => intro available _; exact ⟨rfl, rfl⟩
  | cons n rest ih =>
    intro available h
    have hn := h n (by simp)
    have hrest := ih (available ++ [n.meta.output_name]) fun m hm =>
      all_contains_append (requiredParams m) available [n.meta.output_name]
        (h m (List.mem_cons_of_mem n hm))
    simp only [topoPass, hn, if_true]
    exact ⟨hrest.1, by rw [hrest.2]⟩

/-- C3 amended: the sort is deterministic only relative to the iteration
order of the backing Python set (fixed for a given set object, but
implementation-defined and unrelated to registration order): nodes that
are simultaneously eligible are appended in that set-iteration order.  In
particular, when every node's required parameters are available from the
start, the output order is exactly the enumeration order. -/
theorem topo_ties_follow_enumeration_order (enum : List NodeDef)
    (available : List String)
    (h : ∀ n ∈ enum, (requiredParams n).all available.contains = true) :
    topoEnum enum available = .ok enum := by
  cases enum with
  | nil => rfl
  | cons n rest =>
    have hp := topoPass_all_eligible (n :: rest) available h
    show topoLoop (n :: rest).length available (n :: rest) [] = .ok (n :: rest)
    have hlen : (n :: rest).length = rest.length + 1 := rfl
    rw [hlen]
    simp only [topoLoop, hp.1, hp.2, List.isEmpty_cons, List.nil_append]
    simp [topoLoop]

/-- C3 amended witness: the two-tie graph with the enumeration
`[b_out, a_out]` is ordered exactly as enumerated. -/
theorem topo_ties_follow_enumeration_order_witness :
    (∀ n ∈ [tieNodeB, tieNodeA],
      (requiredParams n).all (["x"] : List String).contains = true)
    ∧ topoEnum [tieNodeB, tieNodeA] ["x"] = .ok [tieNodeB, tieNodeA] := by
  have h : ∀ n ∈ [tieNodeB, tieNodeA],
      (requiredParams n).all (["x"] : List String).contains = true := by
    intro n hn
    rcases List.mem_cons.mp hn with h1 | h1
    · subst h1; decide
    · rcases List.mem_cons.mp h1 with h2 | h2
      · subst h2; decide
      · simp at h2
  exact ⟨h, topo_ties_follow_enumeration_order [tieNodeB, tieNodeA] ["x"] h⟩

theorem runNode_output_exists (cfg : CacheConfig) (node : NodeDef)
    (outputs : List (String × Val)) (st : RunState) :
    ∃ v, (runNode cfg node outputs st).1
      = dictSet node.meta.output_name v outputs := by
  simp only [runNode, runNodeExec]
  repeat' split
  all_goals exact ⟨_, rfl⟩

theorem dictGet_set_isSome (k k' : String) (v : α) (d : List (String × α))
    (h : (dictGet k d).isSome = true) :
    (dictGet k (dictSet k' v d)).isSome = true := by
  by_cases hk : k' = k
  · subst hk; simp [dictGet_set_self]
  · rwa [dictGet_set_ne k k' v d hk]

theorem processNodes_preserves_isSome (cfg : CacheConfig) (order : List NodeDef)
    (k : String) :
    ∀ (env : List (String × Val)) (st : RunState),
      (dictGet k env).isSome = true →
      (dictGet k (processNodes cfg order env st).1).isSome = true := by
  induction order with
  | nil => intro env st h; exact h
  | cons n rest ih =>
    intro env st h
    rw [processNodes_cons]
    obtain ⟨v, hv⟩ := runNode_output_exists cfg n env st
    exact ih _ _ (by rw [hv]; exact dictGet_set_isSome k _ v env h)

theorem processNodes_outputs_present (cfg : CacheConfig) (order : List NodeDef) :
    ∀ (env : List (String × Val)) (st : RunState),
      ∀ n ∈ order,
        (dictGet n.meta.output_name (processNodes cfg order env st).1).isSome = true := by
  induction order with
  | nil => intro env st n hn; simp at hn
  | cons m rest ih =>
    intro env st n hn
    rw [processNodes_cons]
    rcases List.mem_cons.mp hn with h | h
    · subst h
      obtain ⟨v, hv⟩ := runNode_output_exists cfg n env st
      exact processNodes_preserves_isSome cfg rest n.meta.output_name _ _
        (by rw [hv]; simp [dictGet_set_self])
    · exact ih _ _ n h

theorem processNodes_untouched_keys (cfg : CacheConfig) (order : List NodeDef)
    (k : String) (hk : ∀ n ∈ order, n.meta.output_name ≠ k) :
    ∀ (env : List (String × Val)) (st : RunState),
      dictGet k (processNodes cfg order env st).1 = dictGet k env := by
  induction order with
  | nil => intro env st; rfl
  | cons n rest ih =>
    intro env st
    rw [processNodes_cons]
    obtain ⟨v, hv⟩ := runNode_output_exists cfg n env st
    rw [ih (fun m hm => hk m (List.mem_cons_of_mem n hm)) _ _, hv,
      dictGet_set_ne k n.meta.output_name v env (hk n (by simp))]

theorem topoPass_mem (remaining : List NodeDef) :
    ∀ (available : List String), ∀ n ∈ remaining,
      n ∈ (topoPass available remaining).2.1 ∨ n ∈ (topoPass available remaining).2.2 := by
  induction remaining with
  | nil => simp
  | cons m rest ih =>
    intro available n hn
    simp only [topoPass]
    split
    · rcases List.mem_cons.mp hn with h | h
      · subst h; right; exact List.mem_cons_self _ _
      · rcases ih (available ++ [m.meta.output_name]) n h with h2 | h2
        · left; exact h2
        · right; exact List.mem_cons_of_mem _ h2
    · rcases List.mem_cons.mp hn with h | h
      · subst h; left; exact List.mem_cons_self _ _
      · rcases ih available n h with h2 | h2
        · left; exact List.mem_cons_of_mem _ h2
        · right; exact h2

theorem topoLoop_mem : ∀ (fuel : Nat) (available : List String)
    (remaining ordered out : List NodeDef),
    topoLoop fuel available remaining ordered = .ok out →
    ∀ n, n ∈ remaining ∨ n ∈ ordered → n ∈ out := by
  intro fuel
  induction fuel with
  | zero =>
    intro av rem ord out h n hn
    cases rem with
    | nil =>
      cases h
      rcases hn with h1 | h1
      · simp at h1
      · exact h1
    | cons m rest => exact absurd h (by simp [topoLoop])
  | succ fuel ih =>
    intro av rem ord out h n hn
    cases rem with
    | nil =>
      cases h
      rcases hn with h1 | h1
      · simp at h1
      · exact h1
    | cons m rest =>
      simp only [topoLoop] at h
      split at h
      · exact absurd h (by simp)
      · rcases hn with h1 | h1
        · rcases topoPass_mem (m :: rest) av n h1 with h2 | h2
          · exact ih _ _ _ _ h n (.inl h2)
          · exact ih _ _ _ _ h n (.inr (List.mem_append.mpr (.inr h2)))
        · exact ih _ _ _ _ h n (.inr (List.mem_append.mpr (.inl h1)))

theorem topoEnum_mem (enum : List NodeDef) (av : List String)
    (out : List NodeDef) (h : topoEnum enum av = .ok out) :
    ∀ n ∈ enum, n ∈ out :=
  fun n hn => topoLoop_mem enum.length av enum [] out h n (.inl hn)

/-- C6 amended: on the single-item path, the returned environment is the
inputs overlaid with one entry per registered node (inputs whose key no
node outputs are preserved, and every registered node's output name is
bound); on the per-item loop path, the returned environment is only the
non-axis constants plus the final node's output aggregated across items
in item order — the axis input and all intermediate node outputs are
dropped. -/
theorem run_env_single_full_loop_final_only :
    (∀ (cfg : CacheConfig) (enum : List NodeDef) (inputs : List (String × Val))
        (st : RunState) (order : List NodeDef),
      topoEnum enum (dictKeys inputs) = .ok order →
      ∃ env st', runSingle cfg enum inputs st = (.ok env, st')
        ∧ (∀ k v, dictGet k inputs = some v →
            (∀ n ∈ order, n.meta.output_name ≠ k) → dictGet k env = some v)
        ∧ (∀ n ∈ enum, (dictGet n.meta.output_name env).isSome = true))
    ∧ (∀ (cfg : CacheConfig) (enum : List NodeDef) (inputs : List (String × Val))
        (ax : String) (st : RunState) (it0 : Val) (rest : List Val)
        (order : List NodeDef) (agg : List (List (String × Val)))
        (st2 : RunState) (fin : NodeDef),
      dictGet ax inputs = some (.vlist (it0 :: rest)) →
      topoEnum enum (dictKeys (dictSet ax it0
        (inputs.filter fun kv => kv.1 != ax))) = .ok order →
      loopItems cfg enum (inputs.filter fun kv => kv.1 != ax) ax
        (it0 :: rest) st [] = (.ok agg, st2) →
      order.getLast? = some fin →
      runLocalLoop cfg enum inputs ax st =
        (.ok (dictSet fin.meta.output_name
            (.vlist (agg.map fun o => (dictGet fin.meta.output_name o).getD .vnone))
            (inputs.filter fun kv => kv.1 != ax)), st2)) := by
  constructor
  · intro cfg enum inputs st order htopo
    refine ⟨(processNodes cfg order inputs st).1, (processNodes cfg order inputs st).2,
      by simp [runSingle, htopo], ?_, ?_⟩
    · intro k v hv hk
      rw [processNodes_untouched_keys cfg order k hk inputs st, hv]
    · intro n hn
      exact processNodes_outputs_present cfg order inputs st n
        (topoEnum_mem enum (dictKeys inputs) order htopo n hn)
  · intro cfg enum inputs ax st it0 rest order agg st2 fin hax htopo hloop hlast
    simp [runLocalLoop, hax, htopo, hloop, hlast]

/-- C6 amended witness: the scenario graph on the single path, and the
two-node map-axis graph on the loop path with its aggregated-final-only
environment. -/
theorem run_env_single_full_loop_final_only_witness :
    (topoEnum scenarioNodes
        (dictKeys [("a", Val.vint 1), ("b", Val.vint 2), ("c", Val.vint 3)])
      = .ok [fooNode, barNode]
    ∧ dictGet "x" [("x", Val.vlist [Val.vint 1, Val.vint 2]), ("k", Val.vint 9)]
      = some (.vlist [Val.vint 1, Val.vint 2])
    ∧ topoEnum [mapNode1, mapNode2]
        (dictKeys (dictSet "x" (Val.vint 1)
          ([("x", Val.vlist [Val.vint 1, Val.vint 2]), ("k", Val.vint 9)].filter
            fun kv => kv.1 != "x")))
      = .ok [mapNode1, mapNode2]
    ∧ loopItems {} [mapNode1, mapNode2]
        ([("x", Val.vlist [Val.vint 1, Val.vint 2]), ("k", Val.vint 9)].filter
          fun kv => kv.1 != "x") "x"
        [Val.vint 1, Val.vint 2] emptyRunState []
      = (.ok [[("k", Val.vint 9), ("x", Val.vint 1), ("y1", Val.vint 2), ("y2", Val.vint 3)],
              [("k", Val.vint 9), ("x", Val.vint 2), ("y1", Val.vint 4), ("y2", Val.vint 5)]],
         emptyRunState)
    ∧ [mapNode1, mapNode2].getLast? = some mapNode2)
    ∧ (∃ env st', runSingle cacheOnCfg scenarioNodes
          [("a", Val.vint 1), ("b", Val.vint 2), ("c", Val.vint 3)] emptyRunState
        = (.ok env, st')
        ∧ (∀ k v, dictGet k [("a", Val.vint 1), ("b", Val.vint 2), ("c", Val.vint 3)]
              = some v →
            (∀ n ∈ [fooNode, barNode], n.meta.output_name ≠ k) → dictGet k env = some v)
        ∧ (∀ n ∈ scenarioNodes, (dictGet n.meta.output_name env).isSome = true))
    ∧ runLocalLoop {} [mapNode1, mapNode2]
        [("x", Val.vlist [Val.vint 1, Val.vint 2]), ("k", Val.vint 9)] "x" emptyRunState
      = (.ok (dictSet mapNode2.meta.output_name
          (Val.vlist
            (([[("k", Val.vint 9), ("x", Val.vint 1), ("y1", Val.vint 2), ("y2", Val.vint 3)],
               [("k", Val.vint 9), ("x", Val.vint 2), ("y1", Val.vint 4), ("y2", Val.vint 5)]].map
              fun o => (dictGet mapNode2.meta.output_name o).getD Val.vnone)))
          ([("x", Val.vlist [Val.vint 1, Val.vint 2]), ("k", Val.vint 9)].filter
            fun kv => kv.1 != "x")), emptyRunState) :=
  ⟨⟨rfl, rfl, rfl, rfl, rfl⟩,
   run_env_single_full_loop_final_only.1 cacheOnCfg scenarioNodes
     [("a", Val.vint 1), ("b", Val.vint 2), ("c", Val.vint 3)] emptyRunState
     [fooNode, barNode] rfl,
   run_env_single_full_loop_final_only.2 {} [mapNode1, mapNode2]
     [("x", Val.vlist [Val.vint 1, Val.vint 2]), ("k", Val.vint 9)] "x" emptyRunState
     (Val.vint 1) [Val.vint 2] [mapNode1, mapNode2]
     [[("k", Val.vint 9), ("x", Val.vint 1), ("y1", Val.vint 2), ("y2", Val.vint 3)],
      [("k", Val.vint 9), ("x", Val.vint 2), ("y1", Val.vint 4), ("y2", Val.vint 5)]]
     emptyRunState mapNode2 rfl rfl rfl rfl⟩

theorem compute_signature_clock (node_name : String) (fnId : Nat) (retAnn : RetAnn)
    (kwargs : List (String × Val)) (ps : List (String × String))
    (eh : Option String) (dd : Int) (t1 t2 : Nat) :
    compute_signature node_name fnId retAnn kwargs ps eh dd t2
      = { compute_signature node_name fnId retAnn kwargs ps eh dd t1 with
          timestamp := t2 } := rfl

theorem signatures_match_timestamp (s s' : NodeSignature) (t : Nat) :
    signatures_match { s with timestamp := t } s' = signatures_match s s' := rfl

theorem sigStr_timestamp (s : NodeSignature) (t : Nat) :
    sigStr { s with timestamp := t } = sigStr s := rfl

theorem signatures_match_refl (s : NodeSignature) :
    signatures_match s s = true := by
  simp [signatures_match, SerVal.beq_refl]

theorem nodeSig_state (cfg : CacheConfig) (n : NodeDef)
    (env : List (String × Val)) (st1 st2 : RunState)
    (hsigs : st2.sigs = st1.sigs) :
    nodeSig cfg n env st2 = { nodeSig cfg n env st1 with timestamp := st2.clock } := by
  unfold nodeSig
  rw [hsigs]
  exact compute_signature_clock _ _ _ _ _ _ _ st1.clock st2.clock

theorem get_blob_eq_some (c : MemoryCache) (k : String) (v : Val)
    (h : c.get_blob k = v) (hv : v ≠ Val.vnone) : dictGet k c.blobs = some v := by
  cases hd : dictGet k c.blobs with
  | none =>
    rw [MemoryCache.get_blob, hd] at h
    exact absurd h.symm hv
  | some w =>
    rw [MemoryCache.get_blob, hd] at h
    simp only [Option.getD_some] at h
    rw [h]

theorem runNode_backend_frame (cfg : CacheConfig) (n : NodeDef)
    (env : List (String × Val)) (st : RunState) (k : String)
    (haxn : n.meta.map_axis = none) (hk : n.meta.output_name ≠ k) :
    dictGet k (runNode cfg n env st).2.backend.meta = dictGet k st.backend.meta
    ∧ dictGet k (runNode cfg n env st).2.backend.blobs
      = dictGet k st.backend.blobs := by
  have hname := nodeSig_node_name cfg n env st haxn
  simp only [runNode, runNodeExec, nodeCacheKey_axis_none cfg n (nodeKwargs n env) haxn]
  repeat' split
  all_goals
    constructor <;>
      simp [recordEvent_backend, MemoryCache.set_meta, MemoryCache.set_blob,
        hname, dictGet_set_ne _ _ _ _ hk]

theorem processNodes_backend_frame (cfg : CacheConfig) (order : List NodeDef)
    (k : String) (hax : ∀ n ∈ order, n.meta.map_axis = none)
    (hk : ∀ n ∈ order, n.meta.output_name ≠ k) :
    ∀ (env : List (String × Val)) (st : RunState),
      dictGet k (processNodes cfg order env st).2.backend.meta
        = dictGet k st.backend.meta
      ∧ dictGet k (processNodes cfg order env st).2.backend.blobs
        = dictGet k st.backend.blobs := by
  induction order with
  | nil => intro env st; exact ⟨rfl, rfl⟩
  | cons n rest ih =>
    intro env st
    have h1 := runNode_backend_frame cfg n env st k (hax n (by simp)) (hk n (by simp))
    have h2 := ih (fun m hm => hax m (List.mem_cons_of_mem n hm))
      (fun m hm => hk m (List.mem_cons_of_mem n hm))
      (runNode cfg n env st).1 (runNode cfg n env st).2
    rw [processNodes_cons]
    exact ⟨h2.1.trans h1.1, h2.2.trans h1.2⟩

theorem recordEvent_stats_mem (st : RunState) (ev e : CacheEvent)
    (h : e ∈ (recordEvent st ev).stats.getD []) :
    e ∈ st.stats.getD [] ∨ e = ev := by
  cases hs : st.stats with
  | none =>
    rw [recordEvent_stats, hs] at h
    exact absurd h (by simp)
  | some evs =>
    rw [recordEvent_stats, hs] at h
    simp at h
    rcases h with h | h
    · exact .inl h
    · exact .inr h

theorem topoPass_perm (remaining : List NodeDef) :
    ∀ available : List String,
      remaining.Perm ((topoPass available remaining).2.1
        ++ (topoPass available remaining).2.2) := by
  induction remaining with
  | nil => intro available; simp [topoPass]
  | cons m rest ih =>
    intro available
    simp only [topoPass]
    split
    · exact ((ih (available ++ [m.meta.output_name])).cons m).trans
        List.perm_middle.symm
    · exact (ih available).cons m

theorem topoLoop_perm : ∀ (fuel : Nat) (available : List String)
    (remaining ordered out : List NodeDef),
    topoLoop fuel available remaining ordered = .ok out →
    out.Perm (remaining ++ ordered) := by
  intro fuel
  induction fuel with
  | zero =>
    intro av rem ord out h
    cases rem with
    | nil => cases h; simp [List.Perm.refl]
    | cons m rest => exact absurd h (by simp [topoLoop])
  | succ fuel ih =>
    intro av rem ord out h
    cases rem with
    | nil => cases h; simp [List.Perm.refl]
    | cons m rest =>
      simp only [topoLoop] at h
      split at h
      · exact absurd h (by simp)
      · have hp := ih _ _ _ _ h
        have hpass := topoPass_perm (m :: rest) av
        refine hp.trans ?_
        refine (List.Perm.append_left (topoPass av (m :: rest)).2.1
          (@List.perm_append_comm _ ord _)).trans ?_
        rw [← List.append_assoc]
        exact hpass.symm.append_right ord

theorem topoEnum_perm (enum : List NodeDef) (av : List String)
    (out : List NodeDef) (h : topoEnum enum av = .ok out) : out.Perm enum := by
  have hp := topoLoop_perm enum.length av enum [] out h
  simpa using hp

theorem runNode_cached_post (cfg : CacheConfig) (n : NodeDef)
    (env : List (String × Val)) (st : RunState)
    (hen : cfg.enabled = true) (hc : n.meta.cache = true)
    (haxn : n.meta.map_axis = none)
    (hnn : ∀ kw, n.fn kw ≠ Val.vnone) :
    ∃ v s, v ≠ Val.vnone
      ∧ (runNode cfg n env st).1 = dictSet n.meta.output_name v env
      ∧ dictGet n.meta.output_name (runNode cfg n env st).2.backend.meta = some s
      ∧ signatures_match (nodeSig cfg n env st) s = true
      ∧ dictGet n.meta.output_name (runNode cfg n env st).2.backend.blobs = some v
      ∧ (runNode cfg n env st).2.sigs
          = dictSet n.meta.output_name (sigStr (nodeSig cfg n env st)) st.sigs := by
  have hname := nodeSig_node_name cfg n env st haxn
  cases hsm : st.backend.get_meta n.meta.output_name with
  | none =>
    rw [runNode_exec_eq cfg n env st hen hc haxn (by rw [hsm]; trivial)]
    refine ⟨n.fn (nodeKwargs n env), nodeSig cfg n env st, hnn _, rfl, ?_,
      signatures_match_refl _, ?_, ?_⟩
    · rw [recordEvent_backend]
      simp [MemoryCache.set_meta, MemoryCache.set_blob, hname, dictGet_set_self]
    · rw [recordEvent_backend]
      simp [MemoryCache.set_meta, MemoryCache.set_blob, hname, dictGet_set_self]
    · rw [recordEvent_sigs]
  | some s0 =>
    cases hmm : signatures_match (nodeSig cfg n env st) s0 with
    | false =>
      rw [runNode_exec_eq cfg n env st hen hc haxn (by rw [hsm]; exact hmm)]
      refine ⟨n.fn (nodeKwargs n env), nodeSig cfg n env st, hnn _, rfl, ?_,
        signatures_match_refl _, ?_, ?_⟩
      · rw [recordEvent_backend]
        simp [MemoryCache.set_meta, MemoryCache.set_blob, hname, dictGet_set_self]
      · rw [recordEvent_backend]
        simp [MemoryCache.set_meta, MemoryCache.set_blob, hname, dictGet_set_self]
      · rw [recordEvent_sigs]
    | true =>
      have haux : ∀ v : Val, st.backend.get_blob n.meta.output_name = v →
          v ≠ Val.vnone →
          ∃ v2 s, v2 ≠ Val.vnone
            ∧ (runNode cfg n env st).1 = dictSet n.meta.output_name v2 env
            ∧ dictGet n.meta.output_name (runNode cfg n env st).2.backend.meta = some s
            ∧ signatures_match (nodeSig cfg n env st) s = true
            ∧ dictGet n.meta.output_name (runNode cfg n env st).2.backend.blobs = some v2
            ∧ (runNode cfg n env st).2.sigs
                = dictSet n.meta.output_name (sigStr (nodeSig cfg n env st)) st.sigs := by
        intro v hbv hv
        rw [runNode_hit_eq cfg n env st s0 v hen hc haxn hsm hmm hbv hv]
        refine ⟨v, s0, hv, rfl, ?_, hmm, ?_, ?_⟩
        · rw [recordEvent_backend]
          exact hsm
        · rw [recordEvent_backend]
          exact get_blob_eq_some st.backend n.meta.output_name v hbv hv
        · rw [recordEvent_sigs]
      cases hbv : st.backend.get_blob n.meta.output_name with
      | vnone =>
        rw [runNode_hit_noneblob_eq cfg n env st s0 hen hc haxn hsm hmm hbv]
        refine ⟨n.fn (nodeKwargs n env), nodeSig cfg n env st, hnn _, rfl, ?_,
          signatures_match_refl _, ?_, ?_⟩
        · rw [recordEvent_backend]
          simp [MemoryCache.set_meta, MemoryCache.set_blob, hname, dictGet_set_self]
        · rw [recordEvent_backend]
          simp [MemoryCache.set_meta, MemoryCache.set_blob, hname, dictGet_set_self]
        · rw [recordEvent_sigs]
      | vint m => exact haux _ hbv (by simp)
      | vstr a => exact haux _ hbv (by simp)
      | vbool b => exact haux _ hbv (by simp)
      | vlist xs => exact haux _ hbv (by simp)
      | vobj ck oid => exact haux _ hbv (by simp)

theorem processNodes_replay (cfg : CacheConfig) (order : List NodeDef)
    (hen : cfg.enabled = true) :
    ∀ (env : List (String × Val)) (st1 st2 : RunState),
      (∀ n ∈ order, n.meta.map_axis = none) →
      (order.map fun n => n.meta.output_name).Nodup →
      (∀ n ∈ order, n.meta.cache = true → ∀ kw, n.fn kw ≠ Val.vnone) →
      st2.sigs = st1.sigs →
      st2.backend = (processNodes cfg order env st1).2.backend →
      (processNodes cfg order env st2).1 = (processNodes cfg order env st1).1
      ∧ (processNodes cfg order env st2).2.backend = st2.backend
      ∧ (processNodes cfg order env st2).2.sigs
          = (processNodes cfg order env st1).2.sigs
      ∧ (∀ e ∈ (processNodes cfg order env st2).2.stats.getD [],
          e ∈ st2.stats.getD []
          ∨ (e.cache_enabled = true → e.cache_hit = true ∧ e.loaded = true)) := by
  induction order with
  | nil =>
    intro env st1 st2 _ _ _ hsigs hB
    exact ⟨rfl, rfl, hsigs, fun e he => .inl he⟩
  | cons n rest ihr =>
    intro env st1 st2 hax hnodup hnn hsigs hB
    have haxn : n.meta.map_axis = none := hax n (by simp)
    have haxR : ∀ m ∈ rest, m.meta.map_axis = none :=
      fun m hm => hax m (List.mem_cons_of_mem n hm)
    have hnodup2 : (∀ m ∈ rest, m.meta.output_name ≠ n.meta.output_name)
        ∧ (rest.map fun m => m.meta.output_name).Nodup := by simpa using hnodup
    have hnodupR : (rest.map fun m => m.meta.output_name).Nodup := hnodup2.2
    have hkR : ∀ m ∈ rest, m.meta.output_name ≠ n.meta.output_name := hnodup2.1
    have hnnR : ∀ m ∈ rest, m.meta.cache = true → ∀ kw, m.fn kw ≠ Val.vnone :=
      fun m hm => hnn m (List.mem_cons_of_mem n hm)
    cases hcache : n.meta.cache with
    | false =>
      have hcond : (cfg.enabled && n.meta.cache) = false := by simp [hcache]
      have he1 := runNode_uncached_eq cfg n env st1 hcond
      have he2 := runNode_uncached_eq cfg n env st2 hcond
      have hsigs' : (runNode cfg n env st2).2.sigs = (runNode cfg n env st1).2.sigs := by
        rw [he1, he2, recordEvent_sigs, recordEvent_sigs]
        exact hsigs
      have hback2 : (runNode cfg n env st2).2.backend = st2.backend := by
        rw [he2, recordEvent_backend]
      have henv12 : (runNode cfg n env st2).1 = (runNode cfg n env st1).1 := by
        rw [he1, he2]
      have hBr : (runNode cfg n env st2).2.backend
          = (processNodes cfg rest (runNode cfg n env st1).1
              (runNode cfg n env st1).2).2.backend := by
        rw [hback2, hB, processNodes_cons]
      have ih := ihr (runNode cfg n env st1).1 (runNode cfg n env st1).2
        (runNode cfg n env st2).2 haxR hnodupR hnnR hsigs' hBr
      rw [processNodes_cons, processNodes_cons, henv12]
      refine ⟨ih.1, ih.2.1.trans hback2, ih.2.2.1, ?_⟩
      intro e he
      rcases ih.2.2.2 e he with h | h
      · rw [he2] at h
        rcases recordEvent_stats_mem st2 _ e h with h2 | h2
        · exact .inl h2
        · refine .inr fun hEn => ?_
          rw [h2] at hEn
          simp at hEn
      · exact .inr h
    | true =>
      have hnnN : ∀ kw, n.fn kw ≠ Val.vnone := hnn n (by simp) hcache
      obtain ⟨v, s, hv, henv1, hmeta1, hmatch1, hblob1, hsigs1⟩ :=
        runNode_cached_post cfg n env st1 hen hcache haxn hnnN
      have hfr := processNodes_backend_frame cfg rest n.meta.output_name haxR hkR
        (runNode cfg n env st1).1 (runNode cfg n env st1).2
      have hmeta2 : st2.backend.get_meta n.meta.output_name = some s := by
        show dictGet n.meta.output_name st2.backend.meta = some s
        rw [hB, processNodes_cons, hfr.1]
        exact hmeta1
      have hblob2 : st2.backend.get_blob n.meta.output_name = v := by
        show (dictGet n.meta.output_name st2.backend.blobs).getD Val.vnone = v
        rw [hB, processNodes_cons, hfr.2, hblob1]
        rfl
      have hsig2 := nodeSig_state cfg n env st1 st2 hsigs
      have hmatch2 : signatures_match (nodeSig cfg n env st2) s = true := by
        rw [hsig2, signatures_match_timestamp]
        exact hmatch1
      have he2 := runNode_hit_eq cfg n env st2 s v hen hcache haxn hmeta2 hmatch2
        hblob2 hv
      have hsigStr2 : sigStr (nodeSig cfg n env st2) = sigStr (nodeSig cfg n env st1) := by
        rw [hsig2, sigStr_timestamp]
      have hsigs' : (runNode cfg n env st2).2.sigs = (runNode cfg n env st1).2.sigs := by
        rw [he2, recordEvent_sigs, hsigs1]
        show dictSet _ _ st2.sigs = _
        rw [hsigStr2, hsigs]
      have hback2 : (runNode cfg n env st2).2.backend = st2.backend := by
        rw [he2, recordEvent_backend]
      have henv12 : (runNode cfg n env st2).1 = (runNode cfg n env st1).1 := by
        rw [he2, henv1]
      have hBr : (runNode cfg n env st2).2.backend
          = (processNodes cfg rest (runNode cfg n env st1).1
              (runNode cfg n env st1).2).2.backend := by
        rw [hback2, hB, processNodes_cons]
      have ih := ihr (runNode cfg n env st1).1 (runNode cfg n env st1).2
        (runNode cfg n env st2).2 haxR hnodupR hnnR hsigs' hBr
      rw [processNodes_cons, processNodes_cons, henv12]
      refine ⟨ih.1, ih.2.1.trans hback2, ih.2.2.1, ?_⟩
      intro e he
      rcases ih.2.2.2 e he with h | h
      · rw [he2] at h
        rcases recordEvent_stats_mem _ _ e h with h2 | h2
        · exact .inl h2
        · refine .inr fun _ => ?_
          rw [h2]
          exact ⟨rfl, rfl⟩
      · exact .inr h

/-- C2 amended: for a graph of map-axis-free nodes with distinct output
names (the spec's own uniqueness invariant) none of whose cache-enabled
functions returns `None`, running the entry point twice with identical
inputs against the same backend — caching enabled, statistics on, any
non-`daft` mode — returns the identical environment, leaves the backend
untouched during the second run, and records a cache hit (with the blob
loaded) for every cache-enabled node in the second run's statistics.
The `None` exclusion is forced by the counterexample: a stored `None`
blob is indistinguishable from an absent one, so such nodes always miss. -/
theorem run_twice_identical_hits (cfg : CacheConfig) (mode : Mode) (thr : Nat)
    (enum : List NodeDef) (inputs : List (String × Val)) (B0 : MemoryCache)
    (t1 t2 : Nat) (env1 : List (String × Val)) (st1 : RunState)
    (hen : cfg.enabled = true) (hverb : cfg.verbose = true)
    (hmode : mode ≠ Mode.mdaft)
    (hax : ∀ n ∈ enum, n.meta.map_axis = none)
    (hnodup : (enum.map fun n => n.meta.output_name).Nodup)
    (hnn : ∀ n ∈ enum, n.meta.cache = true → ∀ kw, n.fn kw ≠ Val.vnone)
    (h1 : Runner.run cfg mode thr enum enum inputs B0 t1 = (.ok env1, st1)) :
    ∃ st2, Runner.run cfg mode thr enum enum inputs st1.backend t2 = (.ok env1, st2)
      ∧ st2.backend = st1.backend
      ∧ ∀ e ∈ st2.stats.getD [], e.cache_enabled = true →
          e.cache_hit = true ∧ e.loaded = true := by
  have hfm : (enum.filterMap fun n => n.meta.map_axis) = [] :=
    List.filterMap_eq_nil_iff.mpr hax
  have hdisp : ∀ (B : MemoryCache) (t : Nat),
      Runner.run cfg mode thr enum enum inputs B t
        = runSingle cfg enum inputs
            { backend := B, sigs := [], stats := some [], trace := []
              sigComputations := 0, clock := t } := by
    intro B t
    cases mode with
    | mdaft => exact absurd rfl hmode
    | mlocal =>
      simp only [Runner.run, hfm, hen, hverb]
      rfl
    | mauto =>
      simp only [Runner.run, hfm, hen, hverb]
      rfl
  rw [hdisp B0 t1] at h1
  cases htopo : topoEnum enum (dictKeys inputs) with
  | error e =>
    simp only [runSingle, htopo] at h1
    injection h1 with h1a h1b
    exact Except.noConfusion h1a
  | ok order =>
    simp only [runSingle, htopo] at h1
    injection h1 with h1a h1b
    injection h1a with h1a
    have hperm := topoEnum_perm enum (dictKeys inputs) order htopo
    have haxO : ∀ n ∈ order, n.meta.map_axis = none :=
      fun n hn => hax n (hperm.mem_iff.mp hn)
    have hnnO : ∀ n ∈ order, n.meta.cache = true → ∀ kw, n.fn kw ≠ Val.vnone :=
      fun n hn => hnn n (hperm.mem_iff.mp hn)
    have hnodupO : (order.map fun n => n.meta.output_name).Nodup :=
      ((hperm.map fun n => n.meta.output_name).nodup_iff).mpr hnodup
    have hB2 : (RunState.mk st1.backend [] (some []) [] 0 t2).backend
        = (processNodes cfg order inputs
            (RunState.mk B0 [] (some []) [] 0 t1)).2.backend := by
      rw [h1b]
    have hrep := processNodes_replay cfg order hen inputs
      (RunState.mk B0 [] (some []) [] 0 t1)
      (RunState.mk st1.backend [] (some []) [] 0 t2) haxO hnodupO hnnO rfl hB2
    refine ⟨(processNodes cfg order inputs
      (RunState.mk st1.backend [] (some []) [] 0 t2)).2, ?_, ?_, ?_⟩
    · rw [hdisp st1.backend t2]
      simp only [runSingle, htopo]
      rw [hrep.1, h1a]
    · exact hrep.2.1
    · intro e he
      rcases hrep.2.2.2 e he with h | h
      · exact absurd h (by simp)
      · exact h

/-- C2 amended witness: the scenario graph, run twice with identical
inputs; the second run hits on every node. -/
theorem run_twice_identical_hits_witness :
    (cacheOnCfg.enabled = true
      ∧ cacheOnCfg.verbose = true
      ∧ Mode.mauto ≠ Mode.mdaft
      ∧ (∀ n ∈ scenarioNodes, n.meta.map_axis = none)
      ∧ (scenarioNodes.map fun n => n.meta.output_name).Nodup
      ∧ (∀ n ∈ scenarioNodes, n.meta.cache = true → ∀ kw, n.fn kw ≠ Val.vnone)
      ∧ Runner.run cacheOnCfg .mauto 2 scenarioNodes scenarioNodes
          [("a", Val.vint 1), ("b", Val.vint 2), ("c", Val.vint 3)]
          MemoryCache.empty 0 = (.ok (runEnv scenarioRun1), scenarioRun1.2))
    ∧ (∃ st2, Runner.run cacheOnCfg .mauto 2 scenarioNodes scenarioNodes
          [("a", Val.vint 1), ("b", Val.vint 2), ("c", Val.vint 3)]
          scenarioRun1.2.backend 100 = (.ok (runEnv scenarioRun1), st2)
        ∧ st2.backend = scenarioRun1.2.backend
        ∧ ∀ e ∈ st2.stats.getD [], e.cache_enabled = true →
            e.cache_hit = true ∧ e.loaded = true) := by
  have hax : ∀ n ∈ scenarioNodes, n.meta.map_axis = none := by
    intro n hn
    rcases List.mem_cons.mp hn with h | h
    · subst h; rfl
    · rcases List.mem_cons.mp h with h2 | h2
      · subst h2; rfl
      · simp at h2
  have hnn : ∀ n ∈ scenarioNodes, n.meta.cache = true → ∀ kw, n.fn kw ≠ Val.vnone := by
    intro n hn
    rcases List.mem_cons.mp hn with h | h
    · subst h
      intro _ kw
      simp only [fooNode]
      split <;> simp
    · rcases List.mem_cons.mp h with h2 | h2
      · subst h2
        intro _ kw
        simp only [barNode]
        split <;> simp
      · simp at h2
  refine ⟨⟨rfl, rfl, by decide, hax, by decide, hnn, rfl⟩, ?_⟩
  exact run_twice_identical_hits cacheOnCfg .mauto 2 scenarioNodes
    [("a", Val.vint 1), ("b", Val.vint 2), ("c", Val.vint 3)] MemoryCache.empty 0 100
    (runEnv scenarioRun1) scenarioRun1.2 rfl rfl (by decide) hax (by decide) hnn rfl

/-- C9: when the node function's declared return annotation is `bool` or
`NoneType`, signature computation serializes a `__cache_key__`-bearing
argument together with its runtime instance id, so two distinct live
instances with identical `__cache_key__` values get different
`inputs_hash` components and the signatures do not match (a miss);
for any other return annotation the `__cache_key__` token alone
determines the argument's serialization, so the `inputs_hash` components
coincide. -/
theorem force_ids_distinguishes_instances (node_name : String) (fnId : Nat)
    (nm ck : String) (i1 i2 : Nat) (ps : List (String × String))
    (eh : Option String) (dd : Int) (t1 t2 : Nat) (h : i1 ≠ i2) :
    ((compute_signature node_name fnId .rbool [(nm, .vobj ck i1)] ps eh dd t1).inputs_hash
        ≠ (compute_signature node_name fnId .rbool [(nm, .vobj ck i2)] ps eh dd t2).inputs_hash
      ∧ signatures_match
          (compute_signature node_name fnId .rbool [(nm, .vobj ck i1)] ps eh dd t1)
          (compute_signature node_name fnId .rbool [(nm, .vobj ck i2)] ps eh dd t2) = false)
    ∧ ((compute_signature node_name fnId .rnonetype [(nm, .vobj ck i1)] ps eh dd t1).inputs_hash
        ≠ (compute_signature node_name fnId .rnonetype [(nm, .vobj ck i2)] ps eh dd t2).inputs_hash
      ∧ signatures_match
          (compute_signature node_name fnId .rnonetype [(nm, .vobj ck i1)] ps eh dd t1)
          (compute_signature node_name fnId .rnonetype [(nm, .vobj ck i2)] ps eh dd t2) = false)
    ∧ (compute_signature node_name fnId .rother [(nm, .vobj ck i1)] ps eh dd t1).inputs_hash
        = (compute_signature node_name fnId .rother [(nm, .vobj ck i2)] ps eh dd t2).inputs_hash := by
  have hser : ∀ r : RetAnn, force_instance_ids r = true →
      ∀ t, (compute_signature node_name fnId r [(nm, .vobj ck i1)] ps eh dd t).inputs_hash
        = .smap [(nm, .smap [("__cache_key__", .sstr ck), ("__id__", .snum (i1 : Int))])]
      ∧ (compute_signature node_name fnId r [(nm, .vobj ck i2)] ps eh dd t).inputs_hash
        = .smap [(nm, .smap [("__cache_key__", .sstr ck), ("__id__", .snum (i2 : Int))])] := by
    intro r hr t
    constructor <;>
      simp [compute_signature, compute_inputs_hash, sortByKey, insertByKey,
        serialize, hr]
  have hne : ∀ r : RetAnn, force_instance_ids r = true →
      (compute_signature node_name fnId r [(nm, .vobj ck i1)] ps eh dd t1).inputs_hash
        ≠ (compute_signature node_name fnId r [(nm, .vobj ck i2)] ps eh dd t2).inputs_hash := by
    intro r hr heq
    rw [(hser r hr t1).1, (hser r hr t2).2] at heq
    simp only [SerVal.smap.injEq, List.cons.injEq, Prod.mk.injEq, SerVal.snum.injEq,
      and_true, true_and] at heq
    exact h (by exact_mod_cast heq)
  have hmatchf : ∀ r : RetAnn, force_instance_ids r = true →
      signatures_match
        (compute_signature node_name fnId r [(nm, .vobj ck i1)] ps eh dd t1)
        (compute_signature node_name fnId r [(nm, .vobj ck i2)] ps eh dd t2) = false := by
    intro r hr
    have hb : SerVal.beq
        (compute_signature node_name fnId r [(nm, .vobj ck i1)] ps eh dd t1).inputs_hash
        (compute_signature node_name fnId r [(nm, .vobj ck i2)] ps eh dd t2).inputs_hash = false := by
      rw [(hser r hr t1).1, (hser r hr t2).2]
      simp [SerVal.beq, SerVal.beqKVList]
      intro hcast
      exact h (by exact_mod_cast hcast)
    simp [signatures_match, hb]
  refine ⟨⟨hne .rbool rfl, hmatchf .rbool rfl⟩, ⟨hne .rnonetype rfl, hmatchf .rnonetype rfl⟩, ?_⟩
  simp [compute_signature, compute_inputs_hash, sortByKey, insertByKey, serialize,
    force_instance_ids]

/-- C9 witness: instances with ids 0 and 1 and cache key `"ck"`. -/
theorem force_ids_distinguishes_instances_witness :
    (0 : Nat) ≠ 1
    ∧ (((compute_signature "n" 5 .rbool [("x", .vobj "ck" 0)] [] none 2 0).inputs_hash
          ≠ (compute_signature "n" 5 .rbool [("x", .vobj "ck" 1)] [] none 2 1).inputs_hash
        ∧ signatures_match
            (compute_signature "n" 5 .rbool [("x", .vobj "ck" 0)] [] none 2 0)
            (compute_signature "n" 5 .rbool [("x", .vobj "ck" 1)] [] none 2 1) = false)
      ∧ ((compute_signature "n" 5 .rnonetype [("x", .vobj "ck" 0)] [] none 2 0).inputs_hash
          ≠ (compute_signature "n" 5 .rnonetype [("x", .vobj "ck" 1)] [] none 2 1).inputs_hash
        ∧ signatures_match
            (compute_signature "n" 5 .rnonetype [("x", .vobj "ck" 0)] [] none 2 0)
            (compute_signature "n" 5 .rnonetype [("x", .vobj "ck" 1)] [] none 2 1) = false)
      ∧ (compute_signature "n" 5 .rother [("x", .vobj "ck" 0)] [] none 2 0).inputs_hash
          = (compute_signature "n" 5 .rother [("x", .vobj "ck" 1)] [] none 2 1).inputs_hash) :=
  ⟨by decide, force_ids_distinguishes_instances "n" 5 "x" "ck" 0 1 [] none 2 0 1 (by decide)⟩

/-- C6 counterexample: on the per-item loop path (list input under the
map axis, mode `local`), the returned environment is only the non-axis
constants plus the final node's aggregated output: the intermediate
output `y1` and the axis input `x` itself are absent, refuting "returns
every entry of inputs plus one entry per registered node". -/
theorem loop_path_drops_intermediate_outputs :
    runOutput loopRunEx "y1" = none
    ∧ runOutput loopRunEx "x" = none
    ∧ runOutput loopRunEx "y2" = some (.vlist [.vint 3, .vint 5])
    ∧ runOutput loopRunEx "k" = some (.vint 9) := ⟨rfl, rfl, rfl, rfl⟩

end DaftFunc
